import Mathlib

/-!
Verification of the GoChatServer chat-server core against its design
specification.

The Go source is embedded shallowly:

* `Message` mirrors `server.Message` (server/server.go); the raw file bytes
  are modelled as `List Nat`.
* `CState` mirrors the fields of `server.Client` (server/client.go) that the
  registries read or write: username, current room, authenticated flag, and
  the buffered outbound channel `send` (capacity 10), modelled as a list of
  queued messages together with a closed flag.  Clients are identified by
  `Nat` ids playing the role of Go pointers; a client-state table is a
  function `Nat → CState`.
* The credential store mirrors `Server.RegisterUser` / `Server.AuthenticateUser`
  (server/server.go) and `NewUser` / `CheckPassword` (server/user.go).  The
  SHA-256 digest is abstracted as a parameter `hash : String → String`; the
  store keeps only `hash password`, exactly as the source keeps
  `hex(sha256(password))`.
* Room operations mirror `Room.AddClient` / `Room.RemoveClient` /
  `Room.Broadcast` (server/room.go, the channel-send revision).
* The dispatcher loop cases of `Server.handleMessages` (register, unregister,
  broadcast) and the `/login` and `/join` branches of `Client.handleCommand`
  are embedded as state-transition functions on a `Sys` record; direct socket
  writes (`Client.directSend`) are returned as an output list of
  (client id, message) pairs.
* The transfer registry mirrors server/file.go: `InitiateFileTransfer`,
  `AcceptFileTransfer`, `RejectFileTransfer`, `ProcessFileTransfer`, with the
  global `activeTransfers` map as an association list keyed by the
  `sender_receiver_fileName` string.  Client usernames are read through a
  `uname : Nat → String` table (the `.username` field dereference), and the
  floating-point progress line rendering is abstracted as a parameter
  `progressLine : Int → Int → String`.

Go maps are association lists: `alookup` is map indexing, `aput` is map
assignment (replace the binding if the key is present, append otherwise),
`aerase` is `delete`.  Nondeterministic Go map iteration is modelled as
iteration in list order; the nonblocking channel send
(`select { case ch <- msg: default: }`) succeeds exactly when the buffer has
room.
-/

namespace GoChat

/-- Wire/internal message envelope, mirroring `server.Message`. -/
structure Message where
  sender : String
  roomName : String
  content : String
  type : String
  fileData : List Nat
  fileName : String
deriving DecidableEq, Repr

/-- A plain server notice: only Sender, Content and Type are set, all other
fields keep their Go zero values. -/
def serverText (content : String) : Message :=
  { sender := "Server", roomName := "", content := content, type := "text",
    fileData := [], fileName := "" }

/-- The per-connection state of `server.Client` that the registries touch.
The buffered channel `send` (capacity 10) is the queue list plus a closed
flag. -/
structure CState where
  username : String
  currentRoom : String
  authenticated : Bool
  send : List Message
  sendClosed : Bool
deriving DecidableEq, Repr

/-- Capacity of the `send` channel, from `make(chan Message, 10)`. -/
def sendCap : Nat := 10

/-- Nonblocking channel send (`select { case ch <- msg: default: }`):
succeeds exactly when the channel is open and the buffer has room; a full
open channel takes the `default` branch.  A Go send on a CLOSED channel
panics instead; that crash is outside this model, and every theorem below
reaches `trySend` only on open channels. -/
def trySend (st : CState) (msg : Message) : Option CState :=
  if st.sendClosed = false ∧ st.send.length < sendCap then
    some { st with send := st.send ++ [msg] }
  else none

/-- The channel can take one more message. -/
def canSend (st : CState) : Prop :=
  st.sendClosed = false ∧ st.send.length < sendCap

instance (st : CState) : Decidable (canSend st) := by
  unfold canSend
  infer_instance

/-- Update one client's state in the table. -/
def updateCS (cs : Nat → CState) (c : Nat) (st : CState) : Nat → CState :=
  fun x => if x = c then st else cs x

/-! ## Association-list operations for the Go maps -/

/-- Map indexing. -/
def alookup {β : Type} : List (String × β) → String → Option β
  | [], _ => none
  | (k, v) :: rest, key => if k = key then some v else alookup rest key

/-- Map assignment `m[key] = v`: replace the first binding of `key`, or
append a new binding. -/
def aput {β : Type} : List (String × β) → String → β → List (String × β)
  | [], key, v => [(key, v)]
  | (k, w) :: rest, key, v =>
    if k = key then (key, v) :: rest else (k, w) :: aput rest key v

/-- Map deletion `delete(m, key)`: drop the first binding of `key`. -/
def aerase {β : Type} : List (String × β) → String → List (String × β)
  | [], _ => []
  | (k, w) :: rest, key =>
    if k = key then rest else (k, w) :: aerase rest key

/-! ## Credential store (server/server.go, server/user.go) -/

/-- Lookup in the `users` map, keyed by username, value the stored password
hash (`User.PasswordHash`). -/
def lookupUser : List (String × String) → String → Option String :=
  alookup

/-- `Server.RegisterUser`: fails if the username exists, otherwise stores
`NewUser(username, password)`, i.e. the hash of the password. -/
def RegisterUser (hash : String → String) (users : List (String × String))
    (username password : String) : List (String × String) × Bool :=
  match lookupUser users username with
  | some _ => (users, false)
  | none => (users ++ [(username, hash password)], true)

/-- `Server.AuthenticateUser`: false for an unknown username, otherwise
`User.CheckPassword`, i.e. stored hash = hash of the supplied password. -/
def AuthenticateUser (hash : String → String) (users : List (String × String))
    (username password : String) : Bool :=
  match lookupUser users username with
  | some h => h = hash password
  | none => false

/-! ## Room registry (server/room.go, channel-send revision) -/

/-- The notification loop shared by `Room.AddClient`, `Room.RemoveClient`
and `Room.Broadcast`: walk the member set, and for every authenticated
member other than `skip` try a nonblocking send of `msg`; a member whose
channel is full is deleted from the member set (`delete(r.clients, c)`).
Returns the updated client table and the surviving member list. -/
def notifyMembers (cs : Nat → CState) (members : List Nat) (msg : Message)
    (skip : Option Nat) : (Nat → CState) × List Nat :=
  match members with
  | [] => (cs, [])
  | m :: rest =>
    if skip = some m then
      let r := notifyMembers cs rest msg skip
      (r.1, m :: r.2)
    else if (cs m).authenticated then
      match trySend (cs m) msg with
      | some st =>
        let r := notifyMembers (updateCS cs m st) rest msg skip
        (r.1, m :: r.2)
      | none => notifyMembers cs rest msg skip
    else
      let r := notifyMembers cs rest msg skip
      (r.1, m :: r.2)

/-- Join notice built by `Room.AddClient`. -/
def joinNotice (roomName user : String) : Message :=
  { sender := "Server", roomName := roomName,
    content := user ++ " has joined the room", type := "text",
    fileData := [], fileName := "" }

/-- Leave notice built by `Room.RemoveClient`. -/
def leaveNotice (roomName user : String) : Message :=
  { sender := "Server", roomName := roomName,
    content := user ++ " has left the room", type := "text",
    fileData := [], fileName := "" }

/-- `Room.AddClient`: insert the client into the member set, then notify
every other authenticated member with the join notice (full channels drop
that member from the room). -/
def AddClient (cs : Nat → CState) (roomName : String) (members : List Nat)
    (client : Nat) : (Nat → CState) × List Nat :=
  let members₁ := if client ∈ members then members else members ++ [client]
  notifyMembers cs members₁ (joinNotice roomName (cs client).username)
    (some client)

/-- `Room.RemoveClient`: if the client is a member, delete it and notify the
remaining authenticated members with the leave notice; otherwise a no-op. -/
def RemoveClient (cs : Nat → CState) (roomName : String) (members : List Nat)
    (client : Nat) : (Nat → CState) × List Nat :=
  if client ∈ members then
    notifyMembers cs (members.erase client)
      (leaveNotice roomName (cs client).username) none
  else (cs, members)

/-- `Room.Broadcast`: deliver the message to every authenticated member via
a nonblocking send, dropping members whose channel is full. -/
def Broadcast (cs : Nat → CState) (members : List Nat) (msg : Message) :
    (Nat → CState) × List Nat :=
  notifyMembers cs members msg none

/-! ## Dispatcher / server core (server/server.go, server/client.go) -/

/-- The shared mutable state of the server: the client-state table, the
session set `Server.clients`, the room table `Server.rooms` (room name to
member set), and the credential store `Server.users`. -/
structure Sys where
  cs : Nat → CState
  clients : List Nat
  rooms : List (String × List Nat)
  users : List (String × String)

/-- `handleMessages`, `case client := <-s.register`: add to the session
set. -/
def registerStep (sys : Sys) (c : Nat) : Sys :=
  { sys with clients := if c ∈ sys.clients then sys.clients
                        else sys.clients ++ [c] }

/-- `handleMessages`, `case client := <-s.unregister` (the complete
disconnect handling reached from `readPump`'s deferred unregister): if the
client is in the session set, delete it and close its send channel;
otherwise do nothing. -/
def unregisterStep (sys : Sys) (c : Nat) : Sys :=
  if c ∈ sys.clients then
    { sys with clients := sys.clients.erase c,
               cs := updateCS sys.cs c { sys.cs c with sendClosed := true } }
  else sys

/-- The global fan-out of `handleMessages`' broadcast case when the message
names no room: deliver to every authenticated session; a full channel is
closed and the session deleted from the session set. -/
def globalBroadcast (cs : Nat → CState) (clients : List Nat) (msg : Message) :
    (Nat → CState) × List Nat :=
  match clients with
  | [] => (cs, [])
  | c :: rest =>
    if (cs c).authenticated then
      match trySend (cs c) msg with
      | some st =>
        let r := globalBroadcast (updateCS cs c st) rest msg
        (r.1, c :: r.2)
      | none =>
        globalBroadcast (updateCS cs c { cs c with sendClosed := true }) rest
          msg
    else
      let r := globalBroadcast cs rest msg
      (r.1, c :: r.2)

/-- `handleMessages`, `case message := <-s.broadcast`: a message naming a
room goes to that room's `Broadcast` (if the room exists); otherwise the
global fan-out runs. -/
def broadcastStep (sys : Sys) (msg : Message) : Sys :=
  if msg.roomName ≠ "" then
    match alookup sys.rooms msg.roomName with
    | some ms =>
      let r := Broadcast sys.cs ms msg
      { sys with cs := r.1, rooms := aput sys.rooms msg.roomName r.2 }
    | none => sys
  else
    let r := globalBroadcast sys.cs sys.clients msg
    { sys with cs := r.1, clients := r.2 }

/-- The room-join part shared by `/login` (join `general`) and `/join`:
look the room up and run `Room.AddClient`, storing the updated member set;
a missing room leaves everything unchanged (the Go code would dereference a
nil map entry, which no reachable state does since `Run` creates `general`
and `/join` creates the target room first). -/
def joinAdd (cs : Nat → CState) (rooms : List (String × List Nat)) (c : Nat)
    (roomName : String) : (Nat → CState) × List (String × List Nat) :=
  match alookup rooms roomName with
  | some ms =>
    ((AddClient cs roomName ms c).1,
      aput rooms roomName (AddClient cs roomName ms c).2)
  | none => (cs, rooms)

/-- `handleCommand`, `/login` branch (arity already checked): try to
authenticate; on failure try to register; on either success set the
username and authenticated flag, send a direct confirmation, and join the
default room `general`.  On double failure only the "Invalid credentials"
notice is sent. -/
def loginStep (hash : String → String) (sys : Sys) (c : Nat) (u p : String) :
    Sys × List (Nat × Message) :=
  if AuthenticateUser hash sys.users u p then
    let ad := joinAdd
      (updateCS sys.cs c
        { sys.cs c with username := u, authenticated := true })
      sys.rooms c "general"
    ({ sys with cs := ad.1, rooms := ad.2 },
      [(c, serverText "Login successful!")])
  else if (RegisterUser hash sys.users u p).2 then
    let ad := joinAdd
      (updateCS sys.cs c
        { sys.cs c with username := u, authenticated := true })
      sys.rooms c "general"
    ({ sys with
        cs := ad.1,
        rooms := ad.2,
        users := (RegisterUser hash sys.users u p).1 },
      [(c, serverText "Registered and logged in!")])
  else
    (sys, [(c, serverText "Invalid credentials")])

/-- `/join`, room-creation phase: create the room if absent. -/
def joinCreate (rooms : List (String × List Nat)) (roomName : String) :
    List (String × List Nat) :=
  match alookup rooms roomName with
  | some _ => rooms
  | none => rooms ++ [(roomName, [])]

/-- `/join`, leave phase: if the current room is nonempty and exists in the
table, run `Room.RemoveClient` on it and store the updated member set. -/
def joinLeave (cs : Nat → CState) (rooms : List (String × List Nat))
    (c : Nat) : (Nat → CState) × List (String × List Nat) :=
  if (cs c).currentRoom ≠ "" then
    match alookup rooms ((cs c).currentRoom) with
    | some ms =>
      ((RemoveClient cs ((cs c).currentRoom) ms c).1,
        aput rooms ((cs c).currentRoom)
          (RemoveClient cs ((cs c).currentRoom) ms c).2)
    | none => (cs, rooms)
  else (cs, rooms)

/-- `/join`, confirmation phase: nonblocking send of the confirmation
notice to the joining session itself. -/
def joinConfirm (cs : Nat → CState) (c : Nat) (roomName : String) :
    Nat → CState :=
  match trySend (cs c)
      (serverText ("You have joined room: " ++ roomName)) with
  | some st => updateCS cs c st
  | none => cs

/-- `handleCommand`, `/join` branch (arity already checked): requires
authentication; create the room if absent; leave the current room; set
`currentRoom`; add to the new room; finally try a nonblocking send of the
confirmation notice. -/
def joinStep (sys : Sys) (c : Nat) (roomName : String) :
    Sys × List (Nat × Message) :=
  if (sys.cs c).authenticated = false then
    (sys, [(c, serverText "You must log in first")])
  else
    let lv := joinLeave sys.cs (joinCreate sys.rooms roomName) c
    let cs₂ := updateCS lv.1 c { lv.1 c with currentRoom := roomName }
    let ad := joinAdd cs₂ lv.2 c roomName
    ({ sys with cs := joinConfirm ad.1 c roomName, rooms := ad.2 }, [])

/-- The membership-relevant command alphabet: `/login user pass` and
`/join room`, issued by a session. -/
inductive Op where
  | login (c : Nat) (u p : String)
  | join (c : Nat) (room : String)

/-- One command dispatch. -/
def step (hash : String → String) (sys : Sys) : Op → Sys × List (Nat × Message)
  | Op.login c u p => loginStep hash sys c u p
  | Op.join c r => joinStep sys c r

/-- Run a sequence of commands. -/
def runOps (hash : String → String) (sys : Sys) : List Op → Sys
  | [] => sys
  | op :: rest => runOps hash (step hash sys op).1 rest

/-! ## Transfer registry (server/file.go) -/

/-- `server.FileTransfer`; the two `*Client` references are client ids. -/
structure FileTransfer where
  sender : Nat
  receiver : Nat
  fileName : String
  fileSize : Int
  receivedSize : Int
  status : String
  startTime : Nat
deriving DecidableEq, Repr

/-- The `activeTransfers` key `Sender.username + "_" + Receiver.username +
"_" + FileName`, recomputed from a transfer by `RemoveTransfer`. -/
def transferKey (uname : Nat → String) (t : FileTransfer) : String :=
  uname t.sender ++ "_" ++ uname t.receiver ++ "_" ++ t.fileName

/-- The fresh record built by `InitiateFileTransfer`. -/
def newTransfer (s r : Nat) (fileName : String) (fileSize : Int)
    (now : Nat) : FileTransfer :=
  { sender := s, receiver := r, fileName := fileName, fileSize := fileSize,
    receivedSize := 0, status := "pending", startTime := now }

/-- `InitiateFileTransfer`: nil/empty/non-positive arguments fail; a
`pending` transfer under the same key is refreshed (size and start time);
any other existing entry is deleted and a fresh `pending` entry stored. -/
def InitiateFileTransfer (uname : Nat → String)
    (transfers : List (String × FileTransfer)) (sender receiver : Option Nat)
    (fileName : String) (fileSize : Int) (now : Nat) :
    Option FileTransfer × List (String × FileTransfer) :=
  match sender, receiver with
  | some s, some r =>
    if fileName = "" ∨ fileSize ≤ 0 then (none, transfers)
    else
      let key := uname s ++ "_" ++ uname r ++ "_" ++ fileName
      match alookup transfers key with
      | some t =>
        if t.status = "pending" then
          let t' := { t with fileSize := fileSize, startTime := now }
          (some t', aput transfers key t')
        else
          let t' := newTransfer s r fileName fileSize now
          (some t', aput (aerase transfers key) key t')
      | none =>
        let t' := newTransfer s r fileName fileSize now
        (some t', aput transfers key t')
  | _, _ => (none, transfers)

/-- The `file-accepted` envelope sent to the sender on accept. -/
def fileAcceptedEnvelope (receiverName fileName : String) : Message :=
  { sender := receiverName, roomName := "",
    content := "File transfer request for " ++ fileName ++ " accepted",
    type := "file-accepted", fileData := [], fileName := "" }

/-- The `file-rejected` envelope sent to the sender on reject. -/
def fileRejectedEnvelope (receiverName fileName : String) : Message :=
  { sender := receiverName, roomName := "",
    content := "File transfer request for " ++ fileName ++ " rejected",
    type := "file-rejected", fileData := [], fileName := "" }

/-- The "no pending transfer" notice. -/
def noPendingNotice (senderUsername : String) : Message :=
  serverText ("No pending file transfer from " ++ senderUsername)

/-- The lookup loop of `AcceptFileTransfer` / `RejectFileTransfer`: the
first entry whose receiver is `c`, whose sender's username matches, and
whose status is `pending`. -/
def findPending (uname : Nat → String)
    (transfers : List (String × FileTransfer)) (c : Nat)
    (senderUsername : String) : Option (String × FileTransfer) :=
  transfers.find? (fun p =>
    p.2.receiver == c && uname p.2.sender == senderUsername &&
      p.2.status == "pending")

/-- `Client.AcceptFileTransfer`: transition the pending transfer to
`accepted` and notify the sender with a `file-accepted` envelope; with no
matching transfer, reply "no pending transfer".  Returns the transfer acted
on, the new registry, and the direct messages sent. -/
def AcceptFileTransfer (uname : Nat → String)
    (transfers : List (String × FileTransfer)) (c : Nat)
    (senderUsername : String) :
    Option FileTransfer × List (String × FileTransfer) × List (Nat × Message) :=
  match findPending uname transfers c senderUsername with
  | some (k, t) =>
    let t' := { t with status := "accepted" }
    (some t', aput transfers k t',
      [(t.sender, fileAcceptedEnvelope (uname t.receiver) t.fileName),
       (c, serverText "File transfer accepted. Receiving file...")])
  | none =>
    (none, transfers, [(c, noPendingNotice senderUsername)])

/-- `Client.RejectFileTransfer`: transition the pending transfer to
`rejected`, notify the sender with a `file-rejected` envelope, and remove
the entry (`RemoveTransfer`); with no matching transfer, reply "no pending
transfer". -/
def RejectFileTransfer (uname : Nat → String)
    (transfers : List (String × FileTransfer)) (c : Nat)
    (senderUsername : String) :
    Option FileTransfer × List (String × FileTransfer) × List (Nat × Message) :=
  match findPending uname transfers c senderUsername with
  | some (k, t) =>
    let t' := { t with status := "rejected" }
    (some t', aerase (aput transfers k t') (transferKey uname t'),
      [(t.sender, fileRejectedEnvelope (uname t.receiver) t.fileName),
       (c, serverText "File transfer rejected.")])
  | none =>
    (none, transfers, [(c, noPendingNotice senderUsername)])

/-- The lookup loop of `ProcessFileTransfer`: the first entry whose sender
is `c`, whose file name matches, and whose status is `accepted`. -/
def findAccepted (transfers : List (String × FileTransfer)) (c : Nat)
    (fileName : String) : Option (String × FileTransfer) :=
  transfers.find? (fun p =>
    p.2.sender == c && p.2.fileName == fileName && p.2.status == "accepted")

/-- The `file-chunk` envelope relayed to the receiver. -/
def chunkEnvelope (senderName : String) (data : List Nat)
    (fileName : String) : Message :=
  { sender := senderName, roomName := "", content := "", type := "file-chunk",
    fileData := data, fileName := fileName }

/-- Completion notice to the sending client. -/
def senderDoneNotice (fileName receiverName : String) : Message :=
  serverText ("File " ++ fileName ++ " transferred successfully to " ++
    receiverName)

/-- Completion envelope (`file-complete`) to the receiving client. -/
def receiverDoneNotice (fileName senderName : String) : Message :=
  { sender := "Server", roomName := "",
    content := "File " ++ fileName ++ " received successfully from " ++
      senderName,
    type := "file-complete", fileData := [], fileName := "" }

/-- The body of `Client.ProcessFileTransfer` after the accepted transfer
`(k, t)` has been found: forward the bytes to the receiver as a `file-chunk`
envelope; add the chunk length to `ReceivedSize`; maybe emit a progress
notice (rendering of the floating percentage abstracted as `progressLine`);
if this is the last chunk or the accumulated size reached the declared
size, mark `complete`, notify both parties, and remove the entry
(`RemoveTransfer`, which recomputes the key from usernames). -/
def processChunkFound (uname : Nat → String)
    (progressLine : Int → Int → String)
    (transfers : List (String × FileTransfer)) (c : Nat) (data : List Nat)
    (fileName : String) (isLastChunk : Bool) (k : String) (t : FileTransfer) :
    Option FileTransfer × List (String × FileTransfer) × List (Nat × Message) :=
  if isLastChunk = true ∨
      t.fileSize ≤ t.receivedSize + (data.length : Int) then
    (some { t with
        receivedSize := t.receivedSize + (data.length : Int),
        status := "complete" },
      aerase
        (aput transfers k
          { t with
              receivedSize := t.receivedSize + (data.length : Int),
              status := "complete" })
        (transferKey uname
          { t with
              receivedSize := t.receivedSize + (data.length : Int),
              status := "complete" }),
      (t.receiver, chunkEnvelope (uname c) data fileName) ::
        (if (t.receivedSize + (data.length : Int)).tmod
            (t.fileSize.tdiv 10 + 1) = 0 ∨ isLastChunk = true then
          [(c, serverText (progressLine
            (t.receivedSize + (data.length : Int)) t.fileSize))]
        else []) ++
          [(c, senderDoneNotice fileName (uname t.receiver)),
           (t.receiver, receiverDoneNotice fileName (uname c))])
  else
    (some { t with receivedSize := t.receivedSize + (data.length : Int) },
      aput transfers k
        { t with receivedSize := t.receivedSize + (data.length : Int) },
      (t.receiver, chunkEnvelope (uname c) data fileName) ::
        (if (t.receivedSize + (data.length : Int)).tmod
            (t.fileSize.tdiv 10 + 1) = 0 ∨ isLastChunk = true then
          [(c, serverText (progressLine
            (t.receivedSize + (data.length : Int)) t.fileSize))]
        else []))

/-- `Client.ProcessFileTransfer`: find the accepted transfer from `c` with
this file name and run `processChunkFound` on it; with no matching accepted
transfer, notify `c` and drop the chunk. -/
def ProcessFileTransfer (uname : Nat → String)
    (progressLine : Int → Int → String)
    (transfers : List (String × FileTransfer)) (c : Nat) (data : List Nat)
    (fileName : String) (isLastChunk : Bool) :
    Option FileTransfer × List (String × FileTransfer) × List (Nat × Message) :=
  match findAccepted transfers c fileName with
  | none =>
    (none, transfers,
      [(c, serverText
        "No active file transfer found. Recipient may not have accepted yet.")])
  | some (k, t) =>
    processChunkFound uname progressLine transfers c data fileName isLastChunk
      k t

/-! ## Concrete states used to exercise the theorems -/

/-- A small concrete client table: 1 is authenticated ("bob"), 2 is an
unauthenticated connection, any other id is authenticated ("alice"); all
queues empty and open. -/
def wCS : Nat → CState := fun n =>
  if n = 1 then
    { username := "bob", currentRoom := "general", authenticated := true,
      send := [], sendClosed := false }
  else if n = 2 then
    { username := "eve", currentRoom := "general", authenticated := false,
      send := [], sendClosed := false }
  else
    { username := "alice", currentRoom := "general", authenticated := true,
      send := [], sendClosed := false }

/-- A client table where client 2 is authenticated with a full outbound
queue (10 queued messages) and every other id is authenticated with an
empty queue. -/
def fullCS : Nat → CState := fun n =>
  if n = 2 then
    { username := "carl", currentRoom := "general", authenticated := true,
      send := List.replicate 10 (serverText "x"), sendClosed := false }
  else
    { username := "bob", currentRoom := "general", authenticated := true,
      send := [], sendClosed := false }

/-- Server state for the disconnect scenario: sessions 1 and 3, both
authenticated members of `general`. -/
def sysC1 : Sys :=
  { cs := wCS, clients := [1, 3], rooms := [("general", [1, 3])], users := [] }

/-- Server state for the saturation scenario: sessions 1 and 2 in
`general`, client 2's queue full. -/
def sysC2 : Sys :=
  { cs := fullCS, clients := [1, 2], rooms := [("general", [1, 2])],
    users := [] }

/-- A room-addressed chat message for the saturation scenario. -/
def roomMsgW : Message :=
  { sender := "bob", roomName := "general", content := "hi", type := "text",
    fileData := [], fileName := "" }

/-- The fresh session state built by `NewClient`: empty username, default
room `general`, unauthenticated, empty open queue. -/
def freshCS : CState :=
  { username := "", currentRoom := "general", authenticated := false,
    send := [], sendClosed := false }

/-- Initial world for the membership traces: one fresh session (id 1) and
the `general` room created by `Server.Run`. -/
def sysC7 : Sys :=
  { cs := fun _ => freshCS, clients := [1], rooms := [("general", [])],
    users := [] }

/-- The room-membership invariant over the client table and the room table:
every member of a room (as found by map lookup) is authenticated and has
that room as its current room; unauthenticated sessions still point at the
default room `general`; room member sets and the room key list have no
duplicates; no room has the empty name. -/
def roomInv (cs : Nat → CState) (rooms : List (String × List Nat)) : Prop :=
  (∀ r ms, alookup rooms r = some ms →
    (∀ x ∈ ms, (cs x).authenticated = true ∧ (cs x).currentRoom = r) ∧
      ms.Nodup) ∧
  (∀ x, (cs x).authenticated = false → (cs x).currentRoom = "general") ∧
  (rooms.map Prod.fst).Nodup ∧
  alookup rooms "" = none

/-- Commands as actually reachable from the wire: a session only issues
`/login` while not yet authenticated, and `/join` room tokens (produced by
`strings.Fields`) are nonempty. -/
def okOp (sys : Sys) : Op → Prop
  | Op.login c _ _ => (sys.cs c).authenticated = false
  | Op.join _ room => room ≠ ""

/-- `okOp` holding along a whole trace. -/
def okTrace (hash : String → String) (sys : Sys) : List Op → Prop
  | [] => True
  | op :: rest => okOp sys op ∧ okTrace hash (step hash sys op).1 rest

/-- World for the failed-login scenario: one fresh session, `general`
room, and "alice" already registered (with the identity digest, hash
"p1"). -/
def sysC10 : Sys :=
  { cs := fun _ => freshCS, clients := [1], rooms := [("general", [])],
    users := [("alice", "p1")] }

/-- A concrete accepted transfer: alice (1) sending "f.txt" (10 bytes) to
bob (2). -/
def wAccepted : FileTransfer :=
  { sender := 1, receiver := 2, fileName := "f.txt", fileSize := 10,
    receivedSize := 0, status := "accepted", startTime := 5 }

/-- A concrete username table for the transfer scenarios. -/
def wUname : Nat → String := fun n =>
  if n = 1 then "alice" else if n = 2 then "bob" else "carl"

/-- A room-less message, taking the global fan-out path. -/
def globalMsgW : Message :=
  { sender := "Server", roomName := "", content := "hi", type := "text",
    fileData := [], fileName := "" }

/-! # Theorems -/

/-! ## Association-list lemmas -/

theorem alookup_append_right {β : Type} (l : List (String × β)) (u : String)
    (h : alookup l u = none) (v : String) (b : β) :
    alookup (l ++ [(v, b)]) u = if v = u then some b else none := by
  induction l with
  | nil => simp [alookup]
  | cons p rest ih =>
    obtain ⟨u', b'⟩ := p
    by_cases hu : u' = u
    · simp [alookup, hu] at h
    · simp [alookup, hu] at h ⊢
      exact ih h

theorem alookup_aput_self {β : Type} (l : List (String × β)) (key : String)
    (v : β) : alookup (aput l key v) key = some v := by
  induction l with
  | nil => simp [aput, alookup]
  | cons p rest ih =>
    obtain ⟨k, w⟩ := p
    by_cases hk : k = key
    · simp [aput, hk, alookup]
    · simp [aput, hk, alookup, ih]

theorem alookup_aput_other {β : Type} (l : List (String × β)) (key k' : String)
    (v : β) (h : k' ≠ key) : alookup (aput l key v) k' = alookup l k' := by
  induction l with
  | nil =>
    simp only [aput, alookup]
    rw [if_neg (fun hh : key = k' => h hh.symm)]
  | cons p rest ih =>
    obtain ⟨k, w⟩ := p
    by_cases hk : k = key
    · simp only [aput, if_pos hk, alookup]
      rw [if_neg (fun hh : key = k' => h hh.symm),
        if_neg (fun hh : k = k' => h (hh ▸ hk))]
    · simp only [aput, if_neg hk, alookup]
      by_cases hk' : k = k'
      · rw [if_pos hk', if_pos hk']
      · rw [if_neg hk', if_neg hk', ih]

theorem aput_length_of_mem {β : Type} (l : List (String × β)) (key : String)
    (v : β) (h : (alookup l key).isSome) : (aput l key v).length = l.length := by
  induction l with
  | nil => simp [alookup] at h
  | cons p rest ih =>
    obtain ⟨k, w⟩ := p
    by_cases hk : k = key
    · simp [aput, hk]
    · simp [alookup, hk] at h
      simp [aput, hk, ih h]

theorem aput_length_of_notMem {β : Type} (l : List (String × β)) (key : String)
    (v : β) (h : alookup l key = none) :
    (aput l key v).length = l.length + 1 := by
  induction l with
  | nil => simp [aput]
  | cons p rest ih =>
    obtain ⟨k, w⟩ := p
    by_cases hk : k = key
    · simp [alookup, hk] at h
    · simp [alookup, hk] at h
      simp [aput, hk, ih h]

theorem aerase_keys_sublist {β : Type} (l : List (String × β)) (key : String) :
    ((aerase l key).map Prod.fst).Sublist (l.map Prod.fst) := by
  induction l with
  | nil => simp [aerase]
  | cons p rest ih =>
    obtain ⟨k, w⟩ := p
    by_cases hk : k = key
    · simp only [aerase, if_pos hk, List.map_cons]
      exact List.Sublist.cons k (List.Sublist.refl _)
    · simp only [aerase, if_neg hk, List.map_cons]
      exact List.Sublist.cons₂ k ih

theorem alookup_eq_none_of_notMem_keys {β : Type} (l : List (String × β))
    (key : String) (h : key ∉ l.map Prod.fst) : alookup l key = none := by
  induction l with
  | nil => rfl
  | cons p rest ih =>
    obtain ⟨k, w⟩ := p
    simp only [List.map_cons, List.mem_cons] at h
    push_neg at h
    rw [alookup, if_neg (fun hh : k = key => h.1 hh.symm)]
    exact ih h.2

theorem alookup_aerase_self {β : Type} (l : List (String × β)) (key : String)
    (h : (l.map Prod.fst).Nodup) : alookup (aerase l key) key = none := by
  induction l with
  | nil => rfl
  | cons p rest ih =>
    obtain ⟨k, w⟩ := p
    simp only [List.map_cons, List.nodup_cons] at h
    by_cases hk : k = key
    · simp only [aerase, if_pos hk]
      exact alookup_eq_none_of_notMem_keys rest key (hk ▸ h.1)
    · simp only [aerase, if_neg hk, alookup, if_neg hk]
      exact ih h.2

theorem alookup_aerase_other {β : Type} (l : List (String × β))
    (key k' : String) (h : k' ≠ key) :
    alookup (aerase l key) k' = alookup l k' := by
  induction l with
  | nil => rfl
  | cons p rest ih =>
    obtain ⟨k, w⟩ := p
    by_cases hk : k = key
    · simp only [aerase, if_pos hk, alookup]
      rw [if_neg (fun hh : k = k' => h (hh ▸ hk))]
    · simp only [aerase, if_neg hk, alookup]
      by_cases hk' : k = k'
      · rw [if_pos hk', if_pos hk']
      · rw [if_neg hk', if_neg hk', ih]

theorem aput_keys_of_mem {β : Type} (l : List (String × β)) (key : String)
    (v : β) (h : key ∈ l.map Prod.fst) :
    (aput l key v).map Prod.fst = l.map Prod.fst := by
  induction l with
  | nil => simp at h
  | cons p rest ih =>
    obtain ⟨k, w⟩ := p
    by_cases hk : k = key
    · simp [aput, hk]
    · simp only [List.map_cons, List.mem_cons] at h
      rcases h with h | h
      · exact absurd h.symm hk
      · simp [aput, hk, ih h]

theorem aput_keys_nodup_of_mem {β : Type} (l : List (String × β))
    (key : String) (v : β) (hmem : key ∈ l.map Prod.fst)
    (h : (l.map Prod.fst).Nodup) : ((aput l key v).map Prod.fst).Nodup := by
  rw [aput_keys_of_mem l key v hmem]
  exact h

theorem alookup_isSome_iff_mem_keys {β : Type} (l : List (String × β))
    (key : String) : (alookup l key).isSome ↔ key ∈ l.map Prod.fst := by
  induction l with
  | nil => simp [alookup]
  | cons p rest ih =>
    obtain ⟨k, w⟩ := p
    by_cases hk : k = key
    · simp [alookup, hk]
    · simp only [alookup, if_neg hk, List.map_cons, List.mem_cons]
      rw [ih]
      constructor
      · exact fun hm => Or.inr hm
      · rintro (hm | hm)
        · exact absurd hm.symm hk
        · exact hm

/-! ## Credential store: claim C6 -/

/-- Claim C6: `register(u, p)` returns false exactly when username `u`
already exists in the store, and otherwise stores a one-way hash of `p` and
returns true; after a successful `register(u, p)`, a second `register(u, q)`
returns false for any `q`, `authenticate(u, p)` returns true, and
`authenticate(u, w)` returns false for any `w` whose hash differs from `p`'s;
`authenticate` on an unknown username returns false. -/
theorem register_authenticate_spec (hash : String → String)
    (users : List (String × String)) (u p : String)
    (hfree : lookupUser users u = none) :
    (∀ us q, (RegisterUser hash us u q).2 = false ↔ (lookupUser us u).isSome) ∧
    (RegisterUser hash users u p).2 = true ∧
    lookupUser (RegisterUser hash users u p).1 u = some (hash p) ∧
    (∀ q, (RegisterUser hash (RegisterUser hash users u p).1 u q).2 = false) ∧
    AuthenticateUser hash (RegisterUser hash users u p).1 u p = true ∧
    (∀ w, hash w ≠ hash p →
      AuthenticateUser hash (RegisterUser hash users u p).1 u w = false) ∧
    (∀ us w, lookupUser us u = none → AuthenticateUser hash us u w = false) := by
  have hstore : lookupUser (RegisterUser hash users u p).1 u = some (hash p) := by
    rw [RegisterUser, hfree]
    show lookupUser (users ++ [(u, hash p)]) u = some (hash p)
    rw [lookupUser] at hfree ⊢
    simp [alookup_append_right users u hfree]
  refine ⟨?_, ?_, hstore, ?_, ?_, ?_, ?_⟩
  · intro us q
    rw [RegisterUser]
    cases hl : lookupUser us u <;> simp [hl]
  · rw [RegisterUser, hfree]
  · intro q
    rw [RegisterUser, hstore]
  · rw [AuthenticateUser, hstore]
    simp
  · intro w hw
    rw [AuthenticateUser, hstore]
    simp
    exact fun h => absurd h.symm hw
  · intro us w hnone
    rw [AuthenticateUser, hnone]

/-- Concrete run of C6: register "alice" with "p1" in an empty store, then
authenticate. -/
theorem register_authenticate_spec_witness :
    lookupUser [] "alice" = none ∧
    ((RegisterUser (fun s => s) [] "alice" "p1").2 = true ∧
      (RegisterUser (fun s => s)
        (RegisterUser (fun s => s) [] "alice" "p1").1 "alice" "p2").2 = false ∧
      AuthenticateUser (fun s => s)
        (RegisterUser (fun s => s) [] "alice" "p1").1 "alice" "p1" = true ∧
      AuthenticateUser (fun s => s)
        (RegisterUser (fun s => s) [] "alice" "p1").1 "alice" "wrong" = false) := by
  have h := register_authenticate_spec (fun s => s) [] "alice" "p1" (by rfl)
  exact ⟨by rfl, h.2.1, h.2.2.2.1 "p2", h.2.2.2.2.1,
    h.2.2.2.2.2.1 "wrong" (by decide)⟩

/-! ## `notifyMembers`: branch equations and basic facts -/

theorem notifyMembers_cons_skip (cs : Nat → CState) (m : Nat) (rest : List Nat)
    (msg : Message) (skip : Option Nat) (hs : skip = some m) :
    notifyMembers cs (m :: rest) msg skip =
      ((notifyMembers cs rest msg skip).1,
        m :: (notifyMembers cs rest msg skip).2) := by
  rw [notifyMembers, if_pos hs]

theorem notifyMembers_cons_ok (cs : Nat → CState) (m : Nat) (rest : List Nat)
    (msg : Message) (skip : Option Nat) (st : CState) (hs : ¬skip = some m)
    (ha : (cs m).authenticated = true) (hts : trySend (cs m) msg = some st) :
    notifyMembers cs (m :: rest) msg skip =
      ((notifyMembers (updateCS cs m st) rest msg skip).1,
        m :: (notifyMembers (updateCS cs m st) rest msg skip).2) := by
  rw [notifyMembers, if_neg hs, if_pos ha, hts]

theorem notifyMembers_cons_full (cs : Nat → CState) (m : Nat) (rest : List Nat)
    (msg : Message) (skip : Option Nat) (hs : ¬skip = some m)
    (ha : (cs m).authenticated = true) (hts : trySend (cs m) msg = none) :
    notifyMembers cs (m :: rest) msg skip = notifyMembers cs rest msg skip := by
  rw [notifyMembers, if_neg hs, if_pos ha, hts]

theorem notifyMembers_cons_unauth (cs : Nat → CState) (m : Nat)
    (rest : List Nat) (msg : Message) (skip : Option Nat) (hs : ¬skip = some m)
    (ha : (cs m).authenticated = false) :
    notifyMembers cs (m :: rest) msg skip =
      ((notifyMembers cs rest msg skip).1,
        m :: (notifyMembers cs rest msg skip).2) := by
  rw [notifyMembers, if_neg hs, if_neg (by simp [ha])]

theorem notifyMembers_cases (cs : Nat → CState) (m : Nat) (rest : List Nat)
    (msg : Message) (skip : Option Nat) :
    (skip = some m ∧ notifyMembers cs (m :: rest) msg skip =
        ((notifyMembers cs rest msg skip).1,
          m :: (notifyMembers cs rest msg skip).2)) ∨
    (¬skip = some m ∧ (cs m).authenticated = false ∧
      notifyMembers cs (m :: rest) msg skip =
        ((notifyMembers cs rest msg skip).1,
          m :: (notifyMembers cs rest msg skip).2)) ∨
    (∃ st, ¬skip = some m ∧ (cs m).authenticated = true ∧
      trySend (cs m) msg = some st ∧
      notifyMembers cs (m :: rest) msg skip =
        ((notifyMembers (updateCS cs m st) rest msg skip).1,
          m :: (notifyMembers (updateCS cs m st) rest msg skip).2)) ∨
    (¬skip = some m ∧ (cs m).authenticated = true ∧
      trySend (cs m) msg = none ∧
      notifyMembers cs (m :: rest) msg skip = notifyMembers cs rest msg skip) := by
  by_cases hs : skip = some m
  · exact Or.inl ⟨hs, notifyMembers_cons_skip cs m rest msg skip hs⟩
  · by_cases ha : (cs m).authenticated = true
    · cases hts : trySend (cs m) msg with
      | some st =>
        exact Or.inr (Or.inr (Or.inl
          ⟨st, hs, ha, rfl, notifyMembers_cons_ok cs m rest msg skip st hs ha hts⟩))
      | none =>
        exact Or.inr (Or.inr (Or.inr
          ⟨hs, ha, rfl, notifyMembers_cons_full cs m rest msg skip hs ha hts⟩))
    · have ha' : (cs m).authenticated = false := Bool.eq_false_iff.2 ha
      exact Or.inr (Or.inl ⟨hs, ha', notifyMembers_cons_unauth cs m rest msg skip hs ha'⟩)

theorem notifyMembers_cs_of_notMem (cs : Nat → CState) (members : List Nat)
    (msg : Message) (skip : Option Nat) (x : Nat) (hx : x ∉ members) :
    (notifyMembers cs members msg skip).1 x = cs x := by
  induction members generalizing cs with
  | nil => rfl
  | cons m rest ih =>
    have hxm : x ≠ m := fun h => hx (h ▸ List.mem_cons_self m rest)
    have hxr : x ∉ rest := fun h => hx (List.mem_cons_of_mem m h)
    rcases notifyMembers_cases cs m rest msg skip with
      ⟨_, he⟩ | ⟨_, _, he⟩ | ⟨st, _, _, _, he⟩ | ⟨_, _, _, he⟩
    · rw [he]; exact ih cs hxr
    · rw [he]; exact ih cs hxr
    · rw [he]
      show (notifyMembers (updateCS cs m st) rest msg skip).1 x = cs x
      rw [ih (updateCS cs m st) hxr, updateCS, if_neg hxm]
    · rw [he]; exact ih cs hxr

theorem notifyMembers_cs_skip (cs : Nat → CState) (members : List Nat)
    (msg : Message) (c : Nat) :
    (notifyMembers cs members msg (some c)).1 c = cs c := by
  induction members generalizing cs with
  | nil => rfl
  | cons m rest ih =>
    rcases notifyMembers_cases cs m rest msg (some c) with
      ⟨_, he⟩ | ⟨_, _, he⟩ | ⟨st, hs, _, _, he⟩ | ⟨_, _, _, he⟩
    · rw [he]; exact ih cs
    · rw [he]; exact ih cs
    · have hcm : c ≠ m := fun h => hs (by rw [h])
      rw [he]
      show (notifyMembers (updateCS cs m st) rest msg (some c)).1 c = cs c
      rw [ih (updateCS cs m st), updateCS, if_neg hcm]
    · rw [he]; exact ih cs

theorem notifyMembers_cs_unauth (cs : Nat → CState) (members : List Nat)
    (msg : Message) (skip : Option Nat) (x : Nat)
    (hx : (cs x).authenticated = false) :
    (notifyMembers cs members msg skip).1 x = cs x := by
  induction members generalizing cs with
  | nil => rfl
  | cons m rest ih =>
    rcases notifyMembers_cases cs m rest msg skip with
      ⟨_, he⟩ | ⟨_, _, he⟩ | ⟨st, _, ha, _, he⟩ | ⟨_, _, _, he⟩
    · rw [he]; exact ih cs hx
    · rw [he]; exact ih cs hx
    · have hxm : x ≠ m := fun h => by rw [h, ha] at hx; exact Bool.noConfusion hx
      have hx' : ((updateCS cs m st) x).authenticated = false := by
        rw [updateCS, if_neg hxm]; exact hx
      rw [he]
      show (notifyMembers (updateCS cs m st) rest msg skip).1 x = cs x
      rw [ih (updateCS cs m st) hx', updateCS, if_neg hxm]
    · rw [he]; exact ih cs hx

theorem notifyMembers_members_unauth_kept (cs : Nat → CState)
    (members : List Nat) (msg : Message) (skip : Option Nat) (x : Nat)
    (hmem : x ∈ members) (hx : (cs x).authenticated = false) :
    x ∈ (notifyMembers cs members msg skip).2 := by
  induction members generalizing cs with
  | nil => cases hmem
  | cons m rest ih =>
    rcases notifyMembers_cases cs m rest msg skip with
      ⟨_, he⟩ | ⟨_, _, he⟩ | ⟨st, _, ha, _, he⟩ | ⟨_, ha, _, he⟩
    · rw [he]
      rcases List.mem_cons.1 hmem with h | h
      · exact h ▸ List.mem_cons_self _ _
      · exact List.mem_cons_of_mem _ (ih cs h hx)
    · rw [he]
      rcases List.mem_cons.1 hmem with h | h
      · exact h ▸ List.mem_cons_self _ _
      · exact List.mem_cons_of_mem _ (ih cs h hx)
    · have hxm : x ≠ m := fun h => by rw [h, ha] at hx; exact Bool.noConfusion hx
      have hr : x ∈ rest := by
        rcases List.mem_cons.1 hmem with h | h
        · exact absurd h hxm
        · exact h
      have hx' : ((updateCS cs m st) x).authenticated = false := by
        rw [updateCS, if_neg hxm]; exact hx
      rw [he]
      exact List.mem_cons_of_mem _ (ih (updateCS cs m st) hr hx')
    · have hxm : x ≠ m := fun h => by rw [h, ha] at hx; exact Bool.noConfusion hx
      have hr : x ∈ rest := by
        rcases List.mem_cons.1 hmem with h | h
        · exact absurd h hxm
        · exact h
      rw [he]
      exact ih cs hr hx

theorem notifyMembers_members_skip_kept (cs : Nat → CState)
    (members : List Nat) (msg : Message) (c : Nat) (hmem : c ∈ members) :
    c ∈ (notifyMembers cs members msg (some c)).2 := by
  induction members generalizing cs with
  | nil => cases hmem
  | cons m rest ih =>
    rcases notifyMembers_cases cs m rest msg (some c) with
      ⟨hs, he⟩ | ⟨hs, _, he⟩ | ⟨st, hs, _, _, he⟩ | ⟨hs, _, _, he⟩
    · rw [he]
      exact (Option.some.inj hs) ▸ List.mem_cons_self _ _
    all_goals {
      have hcm : c ≠ m := fun h => hs (by rw [h])
      have hr : c ∈ rest := by
        rcases List.mem_cons.1 hmem with h | h
        · exact absurd h hcm
        · exact h
      rw [he]
      first
      | exact List.mem_cons_of_mem _ (ih _ hr)
      | exact ih _ hr
    }

theorem notifyMembers_members_sublist (cs : Nat → CState)
    (members : List Nat) (msg : Message) (skip : Option Nat) :
    (notifyMembers cs members msg skip).2.Sublist members := by
  induction members generalizing cs with
  | nil => exact List.Sublist.refl []
  | cons m rest ih =>
    rcases notifyMembers_cases cs m rest msg skip with
      ⟨_, he⟩ | ⟨_, _, he⟩ | ⟨st, _, _, _, he⟩ | ⟨_, _, _, he⟩
    · rw [he]; exact List.Sublist.cons₂ m (ih cs)
    · rw [he]; exact List.Sublist.cons₂ m (ih cs)
    · rw [he]; exact List.Sublist.cons₂ m (ih (updateCS cs m st))
    · rw [he]; exact List.Sublist.cons m (ih cs)

theorem trySend_eq_of_canSend (st : CState) (msg : Message)
    (h : canSend st) :
    trySend st msg = some { st with send := st.send ++ [msg] } := by
  have h' : st.sendClosed = false ∧ st.send.length < sendCap := h
  rw [trySend, if_pos h']

theorem trySend_eq_none_of_full (st : CState) (msg : Message)
    (h : ¬st.send.length < sendCap) : trySend st msg = none := by
  rw [trySend, if_neg (fun hc => h hc.2)]

theorem notifyMembers_members_total (cs : Nat → CState) (members : List Nat)
    (msg : Message) (skip : Option Nat) (hnd : members.Nodup)
    (hok : ∀ m ∈ members, ¬skip = some m → (cs m).authenticated = true →
      canSend (cs m)) :
    (notifyMembers cs members msg skip).2 = members := by
  induction members generalizing cs with
  | nil => rfl
  | cons m rest ih =>
    have hmr : m ∉ rest := (List.nodup_cons.1 hnd).1
    have hndr : rest.Nodup := (List.nodup_cons.1 hnd).2
    rcases notifyMembers_cases cs m rest msg skip with
      ⟨_, he⟩ | ⟨_, _, he⟩ | ⟨st, _, _, _, he⟩ | ⟨hs, ha, hts, he⟩
    · rw [he]
      rw [ih cs hndr (fun m' hm' => hok m' (List.mem_cons_of_mem m hm'))]
    · rw [he]
      rw [ih cs hndr (fun m' hm' => hok m' (List.mem_cons_of_mem m hm'))]
    · rw [he]
      have hok' : ∀ m' ∈ rest, ¬skip = some m' →
          ((updateCS cs m st) m').authenticated = true →
          canSend ((updateCS cs m st) m') := by
        intro m' hm' hsk
        have hne : m' ≠ m := fun h => hmr (h ▸ hm')
        rw [updateCS, if_neg hne]
        exact hok m' (List.mem_cons_of_mem m hm') hsk
      rw [ih (updateCS cs m st) hndr hok']
    · exfalso
      have hcan := hok m (List.mem_cons_self m rest) hs ha
      rw [trySend_eq_of_canSend (cs m) msg hcan] at hts
      exact Option.noConfusion hts

theorem notifyMembers_cs_auth_ok (cs : Nat → CState) (members : List Nat)
    (msg : Message) (skip : Option Nat) (x : Nat) (hnd : members.Nodup)
    (hmem : x ∈ members) (hsx : ¬skip = some x)
    (hax : (cs x).authenticated = true) (hcx : canSend (cs x)) :
    (notifyMembers cs members msg skip).1 x =
      { cs x with send := (cs x).send ++ [msg] } := by
  induction members generalizing cs with
  | nil => cases hmem
  | cons m rest ih =>
    have hmr : m ∉ rest := (List.nodup_cons.1 hnd).1
    have hndr : rest.Nodup := (List.nodup_cons.1 hnd).2
    rcases notifyMembers_cases cs m rest msg skip with
      ⟨hs, he⟩ | ⟨_, ha, he⟩ | ⟨st, _, ha, hts, he⟩ | ⟨hs, ha, hts, he⟩
    · have hxm : x ≠ m := fun h => hsx (h ▸ hs)
      have hr : x ∈ rest := by
        rcases List.mem_cons.1 hmem with h | h
        · exact absurd h hxm
        · exact h
      rw [he]
      exact ih cs hndr hr hax hcx
    · have hxm : x ≠ m := fun h => by rw [← h, hax] at ha; exact Bool.noConfusion ha
      have hr : x ∈ rest := by
        rcases List.mem_cons.1 hmem with h | h
        · exact absurd h hxm
        · exact h
      rw [he]
      exact ih cs hndr hr hax hcx
    · by_cases hxm : x = m
      · subst hxm
        rw [he]
        show (notifyMembers (updateCS cs x st) rest msg skip).1 x = _
        rw [notifyMembers_cs_of_notMem (updateCS cs x st) rest msg skip x hmr,
          updateCS, if_pos rfl]
        rw [trySend_eq_of_canSend (cs x) msg hcx] at hts
        exact (Option.some.inj hts).symm
      · have hr : x ∈ rest := by
          rcases List.mem_cons.1 hmem with h | h
          · exact absurd h hxm
          · exact h
        have hax' : ((updateCS cs m st) x).authenticated = true := by
          rw [updateCS, if_neg hxm]; exact hax
        have hcx' : canSend ((updateCS cs m st) x) := by
          rw [updateCS, if_neg hxm]; exact hcx
        rw [he]
        show (notifyMembers (updateCS cs m st) rest msg skip).1 x = _
        rw [ih (updateCS cs m st) hndr hr hax' hcx', updateCS, if_neg hxm]
    · by_cases hxm : x = m
      · exfalso
        rw [trySend_eq_of_canSend (cs m) msg (hxm ▸ hcx)] at hts
        exact Option.noConfusion hts
      · have hr : x ∈ rest := by
          rcases List.mem_cons.1 hmem with h | h
          · exact absurd h hxm
          · exact h
        rw [he]
        exact ih cs hndr hr hax hcx

/-! ## Room registry: claim C9 -/

/-- Claim C9: joining a room adds the session to the member set and sends
the "has joined the room" notice to exactly the authenticated members other
than the joiner (never to the joiner itself); leaving removes the session
and sends the "has left the room" notice to the remaining authenticated
members; leaving is a no-op when the session is not a member.  Stated for
member sets without duplicates and with no saturated queue (a full queue
instead triggers the backpressure removal of claim C2). -/
theorem join_leave_notices_spec (cs : Nat → CState) (roomName : String)
    (members : List Nat) (client : Nat) (hnd : members.Nodup)
    (hok : ∀ m ∈ members, canSend (cs m)) :
    (client ∉ members →
      (AddClient cs roomName members client).2 = members ++ [client]) ∧
    (client ∈ members →
      (AddClient cs roomName members client).2 = members) ∧
    (AddClient cs roomName members client).1 client = cs client ∧
    (∀ m ∈ members, m ≠ client → (cs m).authenticated = true →
      (AddClient cs roomName members client).1 m =
        { cs m with send := (cs m).send ++
            [joinNotice roomName (cs client).username] }) ∧
    (∀ m ∈ members, (cs m).authenticated = false →
      (AddClient cs roomName members client).1 m = cs m) ∧
    (∀ x, x ∉ members → x ≠ client →
      (AddClient cs roomName members client).1 x = cs x) ∧
    (client ∈ members →
      ((RemoveClient cs roomName members client).2 = members.erase client ∧
        (RemoveClient cs roomName members client).1 client = cs client ∧
        (∀ m ∈ members, m ≠ client → (cs m).authenticated = true →
          (RemoveClient cs roomName members client).1 m =
            { cs m with send := (cs m).send ++
                [leaveNotice roomName (cs client).username] }) ∧
        (∀ m ∈ members, (cs m).authenticated = false →
          (RemoveClient cs roomName members client).1 m = cs m) ∧
        (∀ x, x ∉ members →
          (RemoveClient cs roomName members client).1 x = cs x))) ∧
    (client ∉ members →
      RemoveClient cs roomName members client = (cs, members)) := by
  have hmem₁ : ∀ hc : client ∉ members,
      (if client ∈ members then members else members ++ [client]) =
        members ++ [client] := fun hc => if_neg hc
  refine ⟨?_, ?_, ?_, ?_, ?_, ?_, ?_, ?_⟩
  · intro hc
    rw [AddClient]
    show (notifyMembers cs (if client ∈ members then members
      else members ++ [client]) _ _).2 = _
    rw [hmem₁ hc]
    refine notifyMembers_members_total _ _ _ _ ?_ ?_
    · exact hnd.append (List.nodup_singleton client) (by simpa using hc)
    · intro m hm hsk _
      rcases List.mem_append.1 hm with h | h
      · exact hok m h
      · exact absurd (congrArg some (List.mem_singleton.1 h).symm) hsk
  · intro hc
    rw [AddClient]
    show (notifyMembers cs (if client ∈ members then members
      else members ++ [client]) _ _).2 = _
    rw [if_pos hc]
    refine notifyMembers_members_total _ _ _ _ hnd ?_
    intro m hm hsk _
    exact hok m hm
  · rw [AddClient]
    exact notifyMembers_cs_skip _ _ _ _
  · intro m hm hmc ha
    rw [AddClient]
    by_cases hc : client ∈ members
    · show (notifyMembers cs (if client ∈ members then members
        else members ++ [client]) _ _).1 m = _
      rw [if_pos hc]
      exact notifyMembers_cs_auth_ok cs members _ _ m hnd hm
        (fun h => hmc (Option.some.inj h).symm) ha (hok m hm)
    · show (notifyMembers cs (if client ∈ members then members
        else members ++ [client]) _ _).1 m = _
      rw [if_neg hc]
      exact notifyMembers_cs_auth_ok cs (members ++ [client]) _ _ m
        (hnd.append (List.nodup_singleton client) (by simpa using hc))
        (List.mem_append.2 (Or.inl hm))
        (fun h => hmc (Option.some.inj h).symm) ha (hok m hm)
  · intro m _ ha
    rw [AddClient]
    exact notifyMembers_cs_unauth _ _ _ _ m ha
  · intro x hx hxc
    rw [AddClient]
    by_cases hc : client ∈ members
    · show (notifyMembers cs (if client ∈ members then members
        else members ++ [client]) _ _).1 x = _
      rw [if_pos hc]
      exact notifyMembers_cs_of_notMem _ _ _ _ x hx
    · show (notifyMembers cs (if client ∈ members then members
        else members ++ [client]) _ _).1 x = _
      rw [if_neg hc]
      refine notifyMembers_cs_of_notMem _ _ _ _ x ?_
      intro hmem
      rcases List.mem_append.1 hmem with h | h
      · exact hx h
      · exact hxc (List.mem_singleton.1 h)
  · intro hc
    have hnde : (members.erase client).Nodup := hnd.erase client
    have hsub : ∀ m ∈ members.erase client, m ∈ members :=
      fun m hm => List.Sublist.mem hm (List.erase_sublist client members)
    refine ⟨?_, ?_, ?_, ?_, ?_⟩
    · rw [RemoveClient, if_pos hc]
      exact notifyMembers_members_total _ _ _ _ hnde
        (fun m hm _ _ => hok m (hsub m hm))
    · rw [RemoveClient, if_pos hc]
      exact notifyMembers_cs_of_notMem _ _ _ _ client hnd.not_mem_erase
    · intro m hm hmc ha
      rw [RemoveClient, if_pos hc]
      exact notifyMembers_cs_auth_ok cs (members.erase client) _ none m hnde
        ((List.mem_erase_of_ne hmc).2 hm) (by simp) ha (hok m hm)
    · intro m _ ha
      rw [RemoveClient, if_pos hc]
      exact notifyMembers_cs_unauth _ _ _ _ m ha
    · intro x hx
      rw [RemoveClient, if_pos hc]
      refine notifyMembers_cs_of_notMem _ _ _ _ x ?_
      intro hmem
      exact hx (hsub x hmem)
  · intro hc
    rw [RemoveClient, if_neg hc]

/-- Concrete run of C9: client 3 ("alice") joins a room whose members are
the authenticated 1 ("bob") and the unauthenticated 2; bob alone gets the
join notice; then 1 leaves the room `[1, 2]`. -/
theorem join_leave_notices_spec_witness :
    (([1, 2] : List Nat).Nodup ∧ (∀ m ∈ ([1, 2] : List Nat), canSend (wCS m))) ∧
    (AddClient wCS "general" [1, 2] 3).2 = [1, 2, 3] ∧
    (AddClient wCS "general" [1, 2] 3).1 1 =
      { wCS 1 with send := (wCS 1).send ++
          [joinNotice "general" (wCS 3).username] } ∧
    (AddClient wCS "general" [1, 2] 3).1 2 = wCS 2 ∧
    (RemoveClient wCS "general" [1, 2] 1).2 = [2] := by
  have h := join_leave_notices_spec wCS "general" [1, 2] 3 (by decide)
    (by decide)
  have h' := join_leave_notices_spec wCS "general" [1, 2] 1 (by decide)
    (by decide)
  refine ⟨⟨by decide, by decide⟩, h.1 (by decide), ?_, ?_, ?_⟩
  · exact h.2.2.2.1 1 (by decide) (by decide) (by decide)
  · exact h.2.2.2.2.1 2 (by decide) (by decide)
  · exact ((h'.2.2.2.2.2.2.1 (by decide)).1).trans (by decide)

/-! ## Global fan-out: branch equations and basic facts -/

theorem globalBroadcast_cons_unauth (cs : Nat → CState) (c : Nat)
    (rest : List Nat) (msg : Message) (ha : (cs c).authenticated = false) :
    globalBroadcast cs (c :: rest) msg =
      ((globalBroadcast cs rest msg).1,
        c :: (globalBroadcast cs rest msg).2) := by
  rw [globalBroadcast, if_neg (by simp [ha])]

theorem globalBroadcast_cons_ok (cs : Nat → CState) (c : Nat)
    (rest : List Nat) (msg : Message) (st : CState)
    (ha : (cs c).authenticated = true) (hts : trySend (cs c) msg = some st) :
    globalBroadcast cs (c :: rest) msg =
      ((globalBroadcast (updateCS cs c st) rest msg).1,
        c :: (globalBroadcast (updateCS cs c st) rest msg).2) := by
  rw [globalBroadcast, if_pos ha, hts]

theorem globalBroadcast_cons_full (cs : Nat → CState) (c : Nat)
    (rest : List Nat) (msg : Message) (ha : (cs c).authenticated = true)
    (hts : trySend (cs c) msg = none) :
    globalBroadcast cs (c :: rest) msg =
      globalBroadcast (updateCS cs c { cs c with sendClosed := true }) rest
        msg := by
  rw [globalBroadcast, if_pos ha, hts]

theorem globalBroadcast_cases (cs : Nat → CState) (c : Nat) (rest : List Nat)
    (msg : Message) :
    ((cs c).authenticated = false ∧
      globalBroadcast cs (c :: rest) msg =
        ((globalBroadcast cs rest msg).1,
          c :: (globalBroadcast cs rest msg).2)) ∨
    (∃ st, (cs c).authenticated = true ∧ trySend (cs c) msg = some st ∧
      globalBroadcast cs (c :: rest) msg =
        ((globalBroadcast (updateCS cs c st) rest msg).1,
          c :: (globalBroadcast (updateCS cs c st) rest msg).2)) ∨
    ((cs c).authenticated = true ∧ trySend (cs c) msg = none ∧
      globalBroadcast cs (c :: rest) msg =
        globalBroadcast (updateCS cs c { cs c with sendClosed := true }) rest
          msg) := by
  by_cases ha : (cs c).authenticated = true
  · cases hts : trySend (cs c) msg with
    | some st =>
      exact Or.inr (Or.inl ⟨st, ha, rfl,
        globalBroadcast_cons_ok cs c rest msg st ha hts⟩)
    | none =>
      exact Or.inr (Or.inr ⟨ha, rfl,
        globalBroadcast_cons_full cs c rest msg ha hts⟩)
  · have ha' : (cs c).authenticated = false := Bool.eq_false_iff.2 ha
    exact Or.inl ⟨ha', globalBroadcast_cons_unauth cs c rest msg ha'⟩

theorem globalBroadcast_cs_of_notMem (cs : Nat → CState) (clients : List Nat)
    (msg : Message) (x : Nat) (hx : x ∉ clients) :
    (globalBroadcast cs clients msg).1 x = cs x := by
  induction clients generalizing cs with
  | nil => rfl
  | cons c rest ih =>
    have hxc : x ≠ c := fun h => hx (h ▸ List.mem_cons_self c rest)
    have hxr : x ∉ rest := fun h => hx (List.mem_cons_of_mem c h)
    rcases globalBroadcast_cases cs c rest msg with
      ⟨_, he⟩ | ⟨st, _, _, he⟩ | ⟨_, _, he⟩
    · rw [he]; exact ih cs hxr
    · rw [he]
      show (globalBroadcast (updateCS cs c st) rest msg).1 x = cs x
      rw [ih (updateCS cs c st) hxr, updateCS, if_neg hxc]
    · rw [he]
      rw [ih (updateCS cs c { cs c with sendClosed := true }) hxr, updateCS,
        if_neg hxc]

theorem globalBroadcast_cs_unauth (cs : Nat → CState) (clients : List Nat)
    (msg : Message) (x : Nat) (hx : (cs x).authenticated = false) :
    (globalBroadcast cs clients msg).1 x = cs x := by
  induction clients generalizing cs with
  | nil => rfl
  | cons c rest ih =>
    rcases globalBroadcast_cases cs c rest msg with
      ⟨_, he⟩ | ⟨st, ha, _, he⟩ | ⟨ha, _, he⟩
    · rw [he]; exact ih cs hx
    · have hxc : x ≠ c := fun h => by rw [h, ha] at hx; exact Bool.noConfusion hx
      have hx' : ((updateCS cs c st) x).authenticated = false := by
        rw [updateCS, if_neg hxc]; exact hx
      rw [he]
      show (globalBroadcast (updateCS cs c st) rest msg).1 x = cs x
      rw [ih (updateCS cs c st) hx', updateCS, if_neg hxc]
    · have hxc : x ≠ c := fun h => by rw [h, ha] at hx; exact Bool.noConfusion hx
      have hx' : ((updateCS cs c { cs c with sendClosed := true }) x).authenticated
          = false := by
        rw [updateCS, if_neg hxc]; exact hx
      rw [he]
      rw [ih (updateCS cs c { cs c with sendClosed := true }) hx', updateCS,
        if_neg hxc]

theorem globalBroadcast_clients_sublist (cs : Nat → CState)
    (clients : List Nat) (msg : Message) :
    (globalBroadcast cs clients msg).2.Sublist clients := by
  induction clients generalizing cs with
  | nil => exact List.Sublist.refl []
  | cons c rest ih =>
    rcases globalBroadcast_cases cs c rest msg with
      ⟨_, he⟩ | ⟨st, _, _, he⟩ | ⟨_, _, he⟩
    · rw [he]; exact List.Sublist.cons₂ c (ih cs)
    · rw [he]; exact List.Sublist.cons₂ c (ih (updateCS cs c st))
    · rw [he]
      exact List.Sublist.cons c
        (ih (updateCS cs c { cs c with sendClosed := true }))

theorem globalBroadcast_full_dropped (cs : Nat → CState) (clients : List Nat)
    (msg : Message) (x : Nat) (hnd : clients.Nodup) (hmem : x ∈ clients)
    (hax : (cs x).authenticated = true) (hts : trySend (cs x) msg = none) :
    (globalBroadcast cs clients msg).1 x =
        { cs x with sendClosed := true } ∧
      x ∉ (globalBroadcast cs clients msg).2 := by
  induction clients generalizing cs with
  | nil => cases hmem
  | cons c rest ih =>
    have hcr : c ∉ rest := (List.nodup_cons.1 hnd).1
    have hndr : rest.Nodup := (List.nodup_cons.1 hnd).2
    rcases globalBroadcast_cases cs c rest msg with
      ⟨ha, he⟩ | ⟨st, ha, hts', he⟩ | ⟨ha, hts', he⟩
    · have hxc : x ≠ c := fun h => by rw [← h, hax] at ha; exact Bool.noConfusion ha
      have hr : x ∈ rest := by
        rcases List.mem_cons.1 hmem with h | h
        · exact absurd h hxc
        · exact h
      rw [he]
      obtain ⟨h₁, h₂⟩ := ih cs hndr hr hax hts
      exact ⟨h₁, by simp [List.mem_cons, hxc, h₂]⟩
    · by_cases hxc : x = c
      · exfalso
        rw [← hxc, hts] at hts'
        exact Option.noConfusion hts'
      · have hr : x ∈ rest := by
          rcases List.mem_cons.1 hmem with h | h
          · exact absurd h hxc
          · exact h
        have hax' : ((updateCS cs c st) x).authenticated = true := by
          rw [updateCS, if_neg hxc]; exact hax
        have hts₁ : trySend ((updateCS cs c st) x) msg = none := by
          rw [updateCS, if_neg hxc]; exact hts
        rw [he]
        obtain ⟨h₁, h₂⟩ := ih (updateCS cs c st) hndr hr hax' hts₁
        constructor
        · show (globalBroadcast (updateCS cs c st) rest msg).1 x = _
          rw [h₁, updateCS, if_neg hxc]
        · simp [List.mem_cons, hxc, h₂]
    · by_cases hxc : x = c
      · subst hxc
        rw [he]
        constructor
        · rw [globalBroadcast_cs_of_notMem _ rest msg x hcr, updateCS,
            if_pos rfl]
        · intro hin
          exact hcr (List.Sublist.mem hin
            (globalBroadcast_clients_sublist _ rest msg))
      · have hr : x ∈ rest := by
          rcases List.mem_cons.1 hmem with h | h
          · exact absurd h hxc
          · exact h
        have hax' : ((updateCS cs c { cs c with sendClosed := true }) x).authenticated
            = true := by
          rw [updateCS, if_neg hxc]; exact hax
        have hts₁ : trySend ((updateCS cs c { cs c with sendClosed := true }) x)
            msg = none := by
          rw [updateCS, if_neg hxc]; exact hts
        rw [he]
        obtain ⟨h₁, h₂⟩ :=
          ih (updateCS cs c { cs c with sendClosed := true }) hndr hr hax' hts₁
        constructor
        · rw [h₁, updateCS, if_neg hxc]
        · exact h₂

/-! ## Claim C8: only authenticated sessions receive broadcast traffic -/

/-- Claim C8: on every broadcast path (room broadcast, global broadcast,
join notices, leave notices) an unauthenticated session's outbound queue is
left untouched — room traffic is delivered only to authenticated
sessions. -/
theorem broadcast_only_authenticated (cs : Nat → CState)
    (members clients : List Nat) (roomName : String) (msg : Message)
    (client x : Nat) (hx : (cs x).authenticated = false) :
    (Broadcast cs members msg).1 x = cs x ∧
    (globalBroadcast cs clients msg).1 x = cs x ∧
    (AddClient cs roomName members client).1 x = cs x ∧
    (RemoveClient cs roomName members client).1 x = cs x := by
  refine ⟨?_, ?_, ?_, ?_⟩
  · rw [Broadcast]
    exact notifyMembers_cs_unauth _ _ _ _ x hx
  · exact globalBroadcast_cs_unauth _ _ _ x hx
  · rw [AddClient]
    exact notifyMembers_cs_unauth _ _ _ _ x hx
  · by_cases hc : client ∈ members
    · rw [RemoveClient, if_pos hc]
      exact notifyMembers_cs_unauth _ _ _ _ x hx
    · rw [RemoveClient, if_neg hc]

/-- Concrete run of C8: the unauthenticated session 2 receives nothing on
any of the four delivery paths. -/
theorem broadcast_only_authenticated_witness :
    (wCS 2).authenticated = false ∧
    (Broadcast wCS [1, 2] globalMsgW).1 2 = wCS 2 ∧
    (globalBroadcast wCS [1, 2] globalMsgW).1 2 = wCS 2 ∧
    (AddClient wCS "general" [1, 2] 3).1 2 = wCS 2 ∧
    (RemoveClient wCS "general" [1, 2] 1).1 2 = wCS 2 := by
  have h := broadcast_only_authenticated wCS [1, 2] [1, 2] "general"
    globalMsgW 3 2 (by decide)
  have h' := broadcast_only_authenticated wCS [1, 2] [1, 2] "general"
    globalMsgW 1 2 (by decide)
  exact ⟨by decide, h.1, h.2.1, h.2.2.1, h'.2.2.2⟩

/-! ## Claim C2: backpressure on a full queue -/

theorem notifyMembers_full_dropped (cs : Nat → CState) (members : List Nat)
    (msg : Message) (skip : Option Nat) (x : Nat) (hnd : members.Nodup)
    (hmem : x ∈ members) (hsx : ¬skip = some x)
    (hax : (cs x).authenticated = true)
    (hts : trySend (cs x) msg = none) :
    (notifyMembers cs members msg skip).1 x = cs x ∧
      x ∉ (notifyMembers cs members msg skip).2 := by
  induction members generalizing cs with
  | nil => cases hmem
  | cons m rest ih =>
    have hmr : m ∉ rest := (List.nodup_cons.1 hnd).1
    have hndr : rest.Nodup := (List.nodup_cons.1 hnd).2
    rcases notifyMembers_cases cs m rest msg skip with
      ⟨hs, he⟩ | ⟨_, ha, he⟩ | ⟨st, _, ha, hts', he⟩ | ⟨hs, ha, hts', he⟩
    · have hxm : x ≠ m := fun h => hsx (h ▸ hs)
      have hr : x ∈ rest := by
        rcases List.mem_cons.1 hmem with h | h
        · exact absurd h hxm
        · exact h
      rw [he]
      obtain ⟨h₁, h₂⟩ := ih cs hndr hr hax hts
      exact ⟨h₁, by simp [List.mem_cons, hxm, h₂]⟩
    · have hxm : x ≠ m := fun h => by rw [← h, hax] at ha; exact Bool.noConfusion ha
      have hr : x ∈ rest := by
        rcases List.mem_cons.1 hmem with h | h
        · exact absurd h hxm
        · exact h
      rw [he]
      obtain ⟨h₁, h₂⟩ := ih cs hndr hr hax hts
      exact ⟨h₁, by simp [List.mem_cons, hxm, h₂]⟩
    · by_cases hxm : x = m
      · exfalso
        rw [← hxm, hts] at hts'
        exact Option.noConfusion hts'
      · have hr : x ∈ rest := by
          rcases List.mem_cons.1 hmem with h | h
          · exact absurd h hxm
          · exact h
        have hax' : ((updateCS cs m st) x).authenticated = true := by
          rw [updateCS, if_neg hxm]; exact hax
        have hts₁ : trySend ((updateCS cs m st) x) msg = none := by
          rw [updateCS, if_neg hxm]; exact hts
        rw [he]
        obtain ⟨h₁, h₂⟩ := ih (updateCS cs m st) hndr hr hax' hts₁
        constructor
        · show (notifyMembers (updateCS cs m st) rest msg skip).1 x = _
          rw [h₁, updateCS, if_neg hxm]
        · simp [List.mem_cons, hxm, h₂]
    · by_cases hxm : x = m
      · subst hxm
        rw [he]
        constructor
        · exact notifyMembers_cs_of_notMem cs rest msg skip x hmr
        · intro hin
          exact hmr (List.Sublist.mem hin
            (notifyMembers_members_sublist cs rest msg skip))
      · have hr : x ∈ rest := by
          rcases List.mem_cons.1 hmem with h | h
          · exact absurd h hxm
          · exact h
        rw [he]
        exact ih cs hndr hr hax hts

/-- Counterexample to claim C2 as stated: in `sysC2` the authenticated
session 2 has a full queue; delivering the room message `roomMsgW` drops 2
from the room's member set, but its queue is NOT closed and it is NOT
removed from the server's session set. -/
theorem room_broadcast_full_queue_cex :
    (broadcastStep sysC2 roomMsgW).rooms = [("general", [1])] ∧
    (broadcastStep sysC2 roomMsgW).clients = [1, 2] ∧
    ((broadcastStep sysC2 roomMsgW).cs 2).sendClosed = false := by
  refine ⟨by decide, by decide, by decide⟩

/-- Claim C2 amended: a session whose queue is full at delivery is dropped
only by the path that was delivering.  On a room broadcast the saturated
member is removed from that room's member set, but its queue stays open and
it stays in the server's session set; on the global (room-less) fan-out the
saturated session's queue is closed and it is removed from the server's
session set, but room member sets are untouched. -/
theorem full_queue_backpressure_paths (sys : Sys) (msg : Message) (x : Nat)
    (ms : List Nat) (hax : (sys.cs x).authenticated = true)
    (hfull : ¬(sys.cs x).send.length < sendCap) :
    (msg.roomName ≠ "" → alookup sys.rooms msg.roomName = some ms →
      ms.Nodup → x ∈ ms →
      (x ∉ (Broadcast sys.cs ms msg).2 ∧
        (Broadcast sys.cs ms msg).1 x = sys.cs x ∧
        (broadcastStep sys msg).rooms =
          aput sys.rooms msg.roomName (Broadcast sys.cs ms msg).2 ∧
        (broadcastStep sys msg).clients = sys.clients)) ∧
    (msg.roomName = "" → sys.clients.Nodup → x ∈ sys.clients →
      (x ∉ (broadcastStep sys msg).clients ∧
        (broadcastStep sys msg).cs x = { sys.cs x with sendClosed := true } ∧
        (broadcastStep sys msg).rooms = sys.rooms)) := by
  have hts : trySend (sys.cs x) msg = none :=
    trySend_eq_none_of_full (sys.cs x) msg hfull
  constructor
  · intro hrn hlk hnd hmem
    obtain ⟨h₁, h₂⟩ := notifyMembers_full_dropped sys.cs ms msg none x hnd
      hmem (by simp) hax hts
    refine ⟨h₂, h₁, ?_, ?_⟩
    · rw [broadcastStep, if_pos hrn, hlk]
    · rw [broadcastStep, if_pos hrn, hlk]
  · intro hrn hnd hmem
    obtain ⟨h₁, h₂⟩ := globalBroadcast_full_dropped sys.cs sys.clients msg x
      hnd hmem hax hts
    have hstep : broadcastStep sys msg =
        { sys with cs := (globalBroadcast sys.cs sys.clients msg).1,
                   clients := (globalBroadcast sys.cs sys.clients msg).2 } := by
      rw [broadcastStep, if_neg (by simp [hrn])]
    rw [hstep]
    exact ⟨h₂, h₁, rfl⟩

/-- Concrete run of the amended C2: the room path drops the saturated
session 2 from `general` only, and the global path closes 2's queue and
removes it from the session set only. -/
theorem full_queue_backpressure_paths_witness :
    ((fullCS 2).authenticated = true ∧ ¬(fullCS 2).send.length < sendCap) ∧
    2 ∉ (Broadcast sysC2.cs [1, 2] roomMsgW).2 ∧
    (broadcastStep sysC2 roomMsgW).clients = [1, 2] ∧
    2 ∉ (broadcastStep sysC2 globalMsgW).clients ∧
    (broadcastStep sysC2 globalMsgW).cs 2 =
      { fullCS 2 with sendClosed := true } ∧
    (broadcastStep sysC2 globalMsgW).rooms = sysC2.rooms := by
  have h₁ := full_queue_backpressure_paths sysC2 roomMsgW 2 [1, 2]
    (by decide) (by decide)
  have h₂ := full_queue_backpressure_paths sysC2 globalMsgW 2 []
    (by decide) (by decide)
  have hr := h₁.1 (by decide) (by decide) (by decide) (by decide)
  have hg := h₂.2 (by decide) (by decide) (by decide)
  exact ⟨⟨by decide, by decide⟩, hr.1, hr.2.2.2, hg.1, hg.2.1, hg.2.2⟩

/-! ## Claim C1: disconnect handling -/

/-- Counterexample to claim C1 as stated: in `sysC1` session 1 is a member
of `general`; the disconnect handling (`readPump` defer, then the
dispatcher's unregister case) removes 1 from the session set and closes its
queue, but `general`'s member set still contains 1 and the remaining member
3 receives no "left" notice. -/
theorem unregister_leaves_room_membership_cex :
    (unregisterStep sysC1 1).clients = [3] ∧
    ((unregisterStep sysC1 1).cs 1).sendClosed = true ∧
    (unregisterStep sysC1 1).rooms = [("general", [1, 3])] ∧
    ((unregisterStep sysC1 1).cs 3).send = [] := by
  refine ⟨by decide, by decide, by decide, by decide⟩

/-- Claim C1 amended: when a session's reader loop exits, the disconnect
handling unregisters the session from the dispatcher's session set and
closes its outbound queue (so the writer task terminates), but it does not
remove the session from any room's member set and sends no "left" notice:
rooms and every other session's state are left exactly as they were. -/
theorem unregister_removes_session_and_closes_queue (sys : Sys) (c : Nat)
    (h : c ∈ sys.clients) :
    (unregisterStep sys c).clients = sys.clients.erase c ∧
    (unregisterStep sys c).cs c = { sys.cs c with sendClosed := true } ∧
    (unregisterStep sys c).rooms = sys.rooms ∧
    (unregisterStep sys c).users = sys.users ∧
    (∀ x, x ≠ c → (unregisterStep sys c).cs x = sys.cs x) := by
  rw [unregisterStep, if_pos h]
  refine ⟨rfl, ?_, rfl, rfl, ?_⟩
  · show updateCS sys.cs c _ c = _
    rw [updateCS, if_pos rfl]
  · intro x hx
    show updateCS sys.cs c _ x = _
    rw [updateCS, if_neg hx]

/-- Concrete run of the amended C1: unregistering session 1 from `sysC1`. -/
theorem unregister_removes_session_and_closes_queue_witness :
    (1 ∈ sysC1.clients) ∧
    (unregisterStep sysC1 1).clients = [3] ∧
    ((unregisterStep sysC1 1).cs 1).sendClosed = true ∧
    (unregisterStep sysC1 1).rooms = sysC1.rooms ∧
    (unregisterStep sysC1 1).cs 3 = sysC1.cs 3 := by
  have h := unregister_removes_session_and_closes_queue sysC1 1 (by decide)
  exact ⟨by decide, h.1.trans (by decide), by rw [h.2.1], h.2.2.1,
    h.2.2.2.2 3 (by decide)⟩

/-! ## Transfer registry: claim C5 -/

theorem initiate_none_sender (uname : Nat → String)
    (transfers : List (String × FileTransfer)) (receiver : Option Nat)
    (fileName : String) (fileSize : Int) (now : Nat) :
    InitiateFileTransfer uname transfers none receiver fileName fileSize now =
      (none, transfers) := rfl

theorem initiate_none_receiver (uname : Nat → String)
    (transfers : List (String × FileTransfer)) (s : Nat)
    (fileName : String) (fileSize : Int) (now : Nat) :
    InitiateFileTransfer uname transfers (some s) none fileName fileSize now =
      (none, transfers) := rfl

theorem initiate_invalid_args (uname : Nat → String)
    (transfers : List (String × FileTransfer)) (s r : Nat)
    (fileName : String) (fileSize : Int) (now : Nat)
    (h : fileName = "" ∨ fileSize ≤ 0) :
    InitiateFileTransfer uname transfers (some s) (some r) fileName fileSize
      now = (none, transfers) := by
  show (if fileName = "" ∨ fileSize ≤ 0 then ((none : Option FileTransfer),
    transfers) else _) = _
  rw [if_pos h]

theorem initiate_refresh_pending (uname : Nat → String)
    (transfers : List (String × FileTransfer)) (s r : Nat)
    (fileName : String) (fileSize : Int) (now : Nat) (t : FileTransfer)
    (hv : ¬(fileName = "" ∨ fileSize ≤ 0))
    (hlk : alookup transfers (uname s ++ "_" ++ uname r ++ "_" ++ fileName) =
      some t)
    (hp : t.status = "pending") :
    InitiateFileTransfer uname transfers (some s) (some r) fileName fileSize
      now =
      (some { t with fileSize := fileSize, startTime := now },
        aput transfers (uname s ++ "_" ++ uname r ++ "_" ++ fileName)
          { t with fileSize := fileSize, startTime := now }) := by
  show (if fileName = "" ∨ fileSize ≤ 0 then ((none : Option FileTransfer),
    transfers) else _) = _
  rw [if_neg hv]
  show (match alookup transfers
      (uname s ++ "_" ++ uname r ++ "_" ++ fileName) with
    | some t =>
      if t.status = "pending" then
        (some { t with fileSize := fileSize, startTime := now },
          aput transfers (uname s ++ "_" ++ uname r ++ "_" ++ fileName)
            { t with fileSize := fileSize, startTime := now })
      else
        (some (newTransfer s r fileName fileSize now),
          aput (aerase transfers
              (uname s ++ "_" ++ uname r ++ "_" ++ fileName))
            (uname s ++ "_" ++ uname r ++ "_" ++ fileName)
            (newTransfer s r fileName fileSize now))
    | none =>
      (some (newTransfer s r fileName fileSize now),
        aput transfers (uname s ++ "_" ++ uname r ++ "_" ++ fileName)
          (newTransfer s r fileName fileSize now))) = _
  rw [hlk]
  show (if t.status = "pending" then _ else _) = _
  rw [if_pos hp]

theorem initiate_replace_stale (uname : Nat → String)
    (transfers : List (String × FileTransfer)) (s r : Nat)
    (fileName : String) (fileSize : Int) (now : Nat) (t : FileTransfer)
    (hv : ¬(fileName = "" ∨ fileSize ≤ 0))
    (hlk : alookup transfers (uname s ++ "_" ++ uname r ++ "_" ++ fileName) =
      some t)
    (hp : ¬t.status = "pending") :
    InitiateFileTransfer uname transfers (some s) (some r) fileName fileSize
      now =
      (some (newTransfer s r fileName fileSize now),
        aput (aerase transfers (uname s ++ "_" ++ uname r ++ "_" ++ fileName))
          (uname s ++ "_" ++ uname r ++ "_" ++ fileName)
          (newTransfer s r fileName fileSize now)) := by
  show (if fileName = "" ∨ fileSize ≤ 0 then ((none : Option FileTransfer),
    transfers) else _) = _
  rw [if_neg hv]
  show (match alookup transfers
      (uname s ++ "_" ++ uname r ++ "_" ++ fileName) with
    | some t =>
      if t.status = "pending" then
        (some { t with fileSize := fileSize, startTime := now },
          aput transfers (uname s ++ "_" ++ uname r ++ "_" ++ fileName)
            { t with fileSize := fileSize, startTime := now })
      else
        (some (newTransfer s r fileName fileSize now),
          aput (aerase transfers
              (uname s ++ "_" ++ uname r ++ "_" ++ fileName))
            (uname s ++ "_" ++ uname r ++ "_" ++ fileName)
            (newTransfer s r fileName fileSize now))
    | none =>
      (some (newTransfer s r fileName fileSize now),
        aput transfers (uname s ++ "_" ++ uname r ++ "_" ++ fileName)
          (newTransfer s r fileName fileSize now))) = _
  rw [hlk]
  show (if t.status = "pending" then _ else _) = _
  rw [if_neg hp]

theorem initiate_create_new (uname : Nat → String)
    (transfers : List (String × FileTransfer)) (s r : Nat)
    (fileName : String) (fileSize : Int) (now : Nat)
    (hv : ¬(fileName = "" ∨ fileSize ≤ 0))
    (hlk : alookup transfers (uname s ++ "_" ++ uname r ++ "_" ++ fileName) =
      none) :
    InitiateFileTransfer uname transfers (some s) (some r) fileName fileSize
      now =
      (some (newTransfer s r fileName fileSize now),
        aput transfers (uname s ++ "_" ++ uname r ++ "_" ++ fileName)
          (newTransfer s r fileName fileSize now)) := by
  show (if fileName = "" ∨ fileSize ≤ 0 then ((none : Option FileTransfer),
    transfers) else _) = _
  rw [if_neg hv]
  show (match alookup transfers
      (uname s ++ "_" ++ uname r ++ "_" ++ fileName) with
    | some t =>
      if t.status = "pending" then
        (some { t with fileSize := fileSize, startTime := now },
          aput transfers (uname s ++ "_" ++ uname r ++ "_" ++ fileName)
            { t with fileSize := fileSize, startTime := now })
      else
        (some (newTransfer s r fileName fileSize now),
          aput (aerase transfers
              (uname s ++ "_" ++ uname r ++ "_" ++ fileName))
            (uname s ++ "_" ++ uname r ++ "_" ++ fileName)
            (newTransfer s r fileName fileSize now))
    | none =>
      (some (newTransfer s r fileName fileSize now),
        aput transfers (uname s ++ "_" ++ uname r ++ "_" ++ fileName)
          (newTransfer s r fileName fileSize now))) = _
  rw [hlk]

/-- Claim C5: `initiate(sender, receiver, fileName, size)` returns none
exactly when sender or receiver is absent, the file name is empty, or the
size is non-positive; when a `pending` transfer already exists under the
key it refreshes that entry's declared size and start time and returns it
without creating a duplicate (registry size unchanged); otherwise it
creates, stores and returns a new entry with status `pending`. -/
theorem initiate_file_transfer_spec (uname : Nat → String)
    (transfers : List (String × FileTransfer)) (sender receiver : Option Nat)
    (fileName : String) (fileSize : Int) (now : Nat) :
    ((InitiateFileTransfer uname transfers sender receiver fileName fileSize
        now).1 = none ↔
      (sender = none ∨ receiver = none ∨ fileName = "" ∨ fileSize ≤ 0)) ∧
    (∀ s r t, sender = some s → receiver = some r →
      ¬(fileName = "" ∨ fileSize ≤ 0) →
      alookup transfers (uname s ++ "_" ++ uname r ++ "_" ++ fileName) =
        some t →
      t.status = "pending" →
      ((InitiateFileTransfer uname transfers sender receiver fileName fileSize
          now).1 = some { t with fileSize := fileSize, startTime := now } ∧
        alookup (InitiateFileTransfer uname transfers sender receiver fileName
            fileSize now).2
          (uname s ++ "_" ++ uname r ++ "_" ++ fileName) =
          some { t with fileSize := fileSize, startTime := now } ∧
        (InitiateFileTransfer uname transfers sender receiver fileName
            fileSize now).2.length = transfers.length)) ∧
    (∀ s r, sender = some s → receiver = some r →
      ¬(fileName = "" ∨ fileSize ≤ 0) →
      alookup transfers (uname s ++ "_" ++ uname r ++ "_" ++ fileName) =
        none →
      ((InitiateFileTransfer uname transfers sender receiver fileName fileSize
          now).1 = some (newTransfer s r fileName fileSize now) ∧
        (newTransfer s r fileName fileSize now).status = "pending" ∧
        alookup (InitiateFileTransfer uname transfers sender receiver fileName
            fileSize now).2
          (uname s ++ "_" ++ uname r ++ "_" ++ fileName) =
          some (newTransfer s r fileName fileSize now) ∧
        (InitiateFileTransfer uname transfers sender receiver fileName
            fileSize now).2.length = transfers.length + 1)) ∧
    (∀ s r t, sender = some s → receiver = some r →
      ¬(fileName = "" ∨ fileSize ≤ 0) →
      alookup transfers (uname s ++ "_" ++ uname r ++ "_" ++ fileName) =
        some t →
      ¬t.status = "pending" →
      ((InitiateFileTransfer uname transfers sender receiver fileName fileSize
          now).1 = some (newTransfer s r fileName fileSize now) ∧
        alookup (InitiateFileTransfer uname transfers sender receiver fileName
            fileSize now).2
          (uname s ++ "_" ++ uname r ++ "_" ++ fileName) =
          some (newTransfer s r fileName fileSize now))) := by
  refine ⟨?_, ?_, ?_, ?_⟩
  · constructor
    · intro hres
      rcases sender with _ | s
      · exact Or.inl rfl
      rcases receiver with _ | r
      · exact Or.inr (Or.inl rfl)
      by_cases hv : fileName = "" ∨ fileSize ≤ 0
      · rcases hv with h | h
        · exact Or.inr (Or.inr (Or.inl h))
        · exact Or.inr (Or.inr (Or.inr h))
      · exfalso
        cases hlk : alookup transfers
            (uname s ++ "_" ++ uname r ++ "_" ++ fileName) with
        | some t =>
          by_cases hp : t.status = "pending"
          · rw [initiate_refresh_pending uname transfers s r fileName fileSize
              now t hv hlk hp] at hres
            exact Option.noConfusion hres
          · rw [initiate_replace_stale uname transfers s r fileName fileSize
              now t hv hlk hp] at hres
            exact Option.noConfusion hres
        | none =>
          rw [initiate_create_new uname transfers s r fileName fileSize now hv
            hlk] at hres
          exact Option.noConfusion hres
    · intro h
      rcases sender with _ | s
      · rw [initiate_none_sender]
      rcases receiver with _ | r
      · rw [initiate_none_receiver]
      have hv : fileName = "" ∨ fileSize ≤ 0 := by
        rcases h with h | h | h | h
        · exact Option.noConfusion h
        · exact Option.noConfusion h
        · exact Or.inl h
        · exact Or.inr h
      rw [initiate_invalid_args uname transfers s r fileName fileSize now hv]
  · intro s r t hs hr hv hlk hp
    subst hs; subst hr
    rw [initiate_refresh_pending uname transfers s r fileName fileSize now t
      hv hlk hp]
    refine ⟨rfl, alookup_aput_self _ _ _, ?_⟩
    exact aput_length_of_mem _ _ _ (by rw [hlk]; rfl)
  · intro s r hs hr hv hlk
    subst hs; subst hr
    rw [initiate_create_new uname transfers s r fileName fileSize now hv hlk]
    exact ⟨rfl, rfl, alookup_aput_self _ _ _,
      aput_length_of_notMem _ _ _ hlk⟩
  · intro s r t hs hr hv hlk hp
    subst hs; subst hr
    rw [initiate_replace_stale uname transfers s r fileName fileSize now t hv
      hlk hp]
    exact ⟨rfl, alookup_aput_self _ _ _⟩

/-- Concrete run of C5: alice offers "f.txt" (100 bytes) to bob in an empty
registry, then re-offers with a new size; and an invalid zero-size offer
fails. -/
theorem initiate_file_transfer_spec_witness :
    (InitiateFileTransfer wUname [] (some 1) (some 2) "f.txt" 100 5).1 =
      some (newTransfer 1 2 "f.txt" 100 5) ∧
    (InitiateFileTransfer wUname
        (InitiateFileTransfer wUname [] (some 1) (some 2) "f.txt" 100 5).2
        (some 1) (some 2) "f.txt" 200 9).1 =
      some { (newTransfer 1 2 "f.txt" 100 5) with fileSize := 200, startTime := 9 } ∧
    (InitiateFileTransfer wUname [] (some 1) (some 2) "f.txt" 0 5).1 = none := by
  have h₁ := initiate_file_transfer_spec wUname [] (some 1) (some 2) "f.txt"
    100 5
  have h₂ := initiate_file_transfer_spec wUname
    (InitiateFileTransfer wUname [] (some 1) (some 2) "f.txt" 100 5).2
    (some 1) (some 2) "f.txt" 200 9
  have h₃ := initiate_file_transfer_spec wUname [] (some 1) (some 2) "f.txt"
    0 5
  refine ⟨(h₁.2.2.1 1 2 rfl rfl (by decide) (by decide)).1, ?_, ?_⟩
  · exact (h₂.2.1 1 2 (newTransfer 1 2 "f.txt" 100 5) rfl rfl (by decide)
      (by decide) (by decide)).1
  · exact h₃.1.2 (Or.inr (Or.inr (Or.inr (by decide))))

/-! ## Transfer registry: claim C4 -/

theorem mem_aput {β : Type} (l : List (String × β)) (key : String) (v : β)
    (hnd : (l.map Prod.fst).Nodup) (p : String × β) (hp : p ∈ aput l key v) :
    p = (key, v) ∨ (p ∈ l ∧ p.1 ≠ key) := by
  induction l with
  | nil =>
    simp only [aput, List.mem_singleton] at hp
    exact Or.inl hp
  | cons q rest ih =>
    obtain ⟨k, w⟩ := q
    simp only [List.map_cons, List.nodup_cons] at hnd
    by_cases hk : k = key
    · simp only [aput, if_pos hk, List.mem_cons] at hp
      rcases hp with hp | hp
      · exact Or.inl hp
      · refine Or.inr ⟨List.mem_cons_of_mem _ hp, ?_⟩
        intro hpk
        exact hnd.1 (hk ▸ hpk ▸ (List.mem_map_of_mem Prod.fst hp))
    · simp only [aput, if_neg hk, List.mem_cons] at hp
      rcases hp with hp | hp
      · refine Or.inr ⟨hp ▸ List.mem_cons_self _ _, ?_⟩
        rw [hp]
        exact hk
      · rcases ih hnd.2 hp with h | h
        · exact Or.inl h
        · exact Or.inr ⟨List.mem_cons_of_mem _ h.1, h.2⟩

theorem mem_aerase {β : Type} (l : List (String × β)) (key : String)
    (hnd : (l.map Prod.fst).Nodup) (p : String × β)
    (hp : p ∈ aerase l key) : p ∈ l ∧ p.1 ≠ key := by
  induction l with
  | nil => cases hp
  | cons q rest ih =>
    obtain ⟨k, w⟩ := q
    simp only [List.map_cons, List.nodup_cons] at hnd
    by_cases hk : k = key
    · simp only [aerase, if_pos hk] at hp
      refine ⟨List.mem_cons_of_mem _ hp, ?_⟩
      intro hpk
      exact hnd.1 (hk ▸ hpk ▸ (List.mem_map_of_mem Prod.fst hp))
    · simp only [aerase, if_neg hk, List.mem_cons] at hp
      rcases hp with hp | hp
      · refine ⟨hp ▸ List.mem_cons_self _ _, ?_⟩
        rw [hp]
        exact hk
      · rcases ih hnd.2 hp with ⟨h₁, h₂⟩
        exact ⟨List.mem_cons_of_mem _ h₁, h₂⟩

theorem reject_found (uname : Nat → String)
    (transfers : List (String × FileTransfer)) (c : Nat)
    (senderUsername : String) (k : String) (t : FileTransfer)
    (h : findPending uname transfers c senderUsername = some (k, t)) :
    RejectFileTransfer uname transfers c senderUsername =
      (some { t with status := "rejected" },
        aerase (aput transfers k { t with status := "rejected" })
          (transferKey uname { t with status := "rejected" }),
        [(t.sender, fileRejectedEnvelope (uname t.receiver) t.fileName),
         (c, serverText "File transfer rejected.")]) := by
  unfold RejectFileTransfer
  rw [h]

theorem reject_not_found (uname : Nat → String)
    (transfers : List (String × FileTransfer)) (c : Nat)
    (senderUsername : String)
    (h : findPending uname transfers c senderUsername = none) :
    RejectFileTransfer uname transfers c senderUsername =
      (none, transfers, [(c, noPendingNotice senderUsername)]) := by
  unfold RejectFileTransfer
  rw [h]

theorem accept_found (uname : Nat → String)
    (transfers : List (String × FileTransfer)) (c : Nat)
    (senderUsername : String) (k : String) (t : FileTransfer)
    (h : findPending uname transfers c senderUsername = some (k, t)) :
    AcceptFileTransfer uname transfers c senderUsername =
      (some { t with status := "accepted" },
        aput transfers k { t with status := "accepted" },
        [(t.sender, fileAcceptedEnvelope (uname t.receiver) t.fileName),
         (c, serverText "File transfer accepted. Receiving file...")]) := by
  unfold AcceptFileTransfer
  rw [h]

theorem accept_not_found (uname : Nat → String)
    (transfers : List (String × FileTransfer)) (c : Nat)
    (senderUsername : String)
    (h : findPending uname transfers c senderUsername = none) :
    AcceptFileTransfer uname transfers c senderUsername =
      (none, transfers, [(c, noPendingNotice senderUsername)]) := by
  unfold AcceptFileTransfer
  rw [h]

/-- Claim C4: for a pending transfer from sender S to receiver R (the only
pending S-to-R entry in the registry, with the registry keyed consistently),
`reject(R, S)` transitions it to `rejected`, notifies S with a
`file-rejected` envelope, and removes the entry from the registry; a
subsequent `accept(R, S)` finds no pending transfer and replies with the
"no pending transfer" notice, leaving the registry unchanged. -/
theorem reject_then_accept_no_pending (uname : Nat → String)
    (transfers : List (String × FileTransfer)) (c : Nat)
    (senderUsername : String) (k : String) (t : FileTransfer)
    (hfind : findPending uname transfers c senderUsername = some (k, t))
    (hnd : (transfers.map Prod.fst).Nodup)
    (hkey : k = transferKey uname t)
    (huniq : ∀ p ∈ transfers, p.2.receiver = c →
      uname p.2.sender = senderUsername → p.2.status = "pending" →
      p = (k, t)) :
    (RejectFileTransfer uname transfers c senderUsername).1 =
        some { t with status := "rejected" } ∧
    ({ t with status := "rejected" }).status = "rejected" ∧
    (RejectFileTransfer uname transfers c senderUsername).2.2 =
      [(t.sender, fileRejectedEnvelope (uname t.receiver) t.fileName),
       (c, serverText "File transfer rejected.")] ∧
    alookup (RejectFileTransfer uname transfers c senderUsername).2.1 k =
      none ∧
    AcceptFileTransfer uname
        (RejectFileTransfer uname transfers c senderUsername).2.1 c
        senderUsername =
      (none, (RejectFileTransfer uname transfers c senderUsername).2.1,
        [(c, noPendingNotice senderUsername)]) := by
  have hkmem : k ∈ transfers.map Prod.fst := by
    have := List.mem_of_find?_eq_some hfind
    exact List.mem_map_of_mem Prod.fst this
  have hre := reject_found uname transfers c senderUsername k t hfind
  have hkey' : transferKey uname { t with status := "rejected" } = k := by
    rw [hkey]; rfl
  have hndput : ((aput transfers k
      { t with status := "rejected" }).map Prod.fst).Nodup :=
    aput_keys_nodup_of_mem transfers k _ hkmem hnd
  have hmem_after : ∀ p ∈ (RejectFileTransfer uname transfers c
      senderUsername).2.1, p ∈ transfers ∧ p.1 ≠ k := by
    intro p hp
    rw [hre] at hp
    simp only [hkey'] at hp
    obtain ⟨hp₁, hp₂⟩ := mem_aerase _ k hndput p hp
    rcases mem_aput transfers k _ hnd p hp₁ with h | h
    · exact absurd (by rw [h]) hp₂
    · exact h
  have hfind_after : findPending uname
      (RejectFileTransfer uname transfers c senderUsername).2.1 c
      senderUsername = none := by
    rw [findPending, List.find?_eq_none]
    intro p hp hpred
    obtain ⟨hpmem, hpk⟩ := hmem_after p hp
    simp only [Bool.and_eq_true, beq_iff_eq] at hpred
    exact hpk (congrArg Prod.fst
      (huniq p hpmem hpred.1.1 hpred.1.2 hpred.2))
  refine ⟨by rw [hre], rfl, by rw [hre], ?_, ?_⟩
  · rw [hre]
    simp only [hkey']
    exact alookup_aerase_self _ k hndput
  · exact accept_not_found uname _ c senderUsername hfind_after

/-- Concrete run of C4: bob (id 2) rejects alice's (id 1) pending offer of
"f.txt"; alice gets the `file-rejected` envelope, the entry disappears, and
a subsequent accept reports "no pending transfer". -/
theorem reject_then_accept_no_pending_witness :
    (RejectFileTransfer wUname
        [("alice_bob_f.txt", newTransfer 1 2 "f.txt" 100 5)] 2 "alice").2.2 =
      [(1, fileRejectedEnvelope "bob" "f.txt"),
       (2, serverText "File transfer rejected.")] ∧
    alookup (RejectFileTransfer wUname
        [("alice_bob_f.txt", newTransfer 1 2 "f.txt" 100 5)] 2 "alice").2.1
      "alice_bob_f.txt" = none ∧
    AcceptFileTransfer wUname
        (RejectFileTransfer wUname
          [("alice_bob_f.txt", newTransfer 1 2 "f.txt" 100 5)] 2 "alice").2.1
        2 "alice" =
      (none, (RejectFileTransfer wUname
          [("alice_bob_f.txt", newTransfer 1 2 "f.txt" 100 5)] 2 "alice").2.1,
        [(2, noPendingNotice "alice")]) := by
  have h := reject_then_accept_no_pending wUname
    [("alice_bob_f.txt", newTransfer 1 2 "f.txt" 100 5)] 2 "alice"
    "alice_bob_f.txt" (newTransfer 1 2 "f.txt" 100 5)
    (by decide) (by decide) (by decide) (by decide)
  exact ⟨h.2.2.1.trans (by decide), h.2.2.2.1, h.2.2.2.2⟩

/-! ## Transfer registry: claim C3 -/

theorem process_not_found (uname : Nat → String)
    (progressLine : Int → Int → String)
    (transfers : List (String × FileTransfer)) (c : Nat) (data : List Nat)
    (fileName : String) (isLastChunk : Bool)
    (h : findAccepted transfers c fileName = none) :
    ProcessFileTransfer uname progressLine transfers c data fileName
      isLastChunk =
      (none, transfers,
        [(c, serverText
          "No active file transfer found. Recipient may not have accepted yet.")]) := by
  unfold ProcessFileTransfer
  rw [h]

theorem process_found (uname : Nat → String)
    (progressLine : Int → Int → String)
    (transfers : List (String × FileTransfer)) (c : Nat) (data : List Nat)
    (fileName : String) (isLastChunk : Bool) (k : String) (t : FileTransfer)
    (h : findAccepted transfers c fileName = some (k, t)) :
    ProcessFileTransfer uname progressLine transfers c data fileName
      isLastChunk =
      processChunkFound uname progressLine transfers c data fileName
        isLastChunk k t := by
  unfold ProcessFileTransfer
  rw [h]

theorem processChunkFound_complete (uname : Nat → String)
    (progressLine : Int → Int → String)
    (transfers : List (String × FileTransfer)) (c : Nat) (data : List Nat)
    (fileName : String) (isLastChunk : Bool) (k : String) (t : FileTransfer)
    (hdone : isLastChunk = true ∨
      t.fileSize ≤ t.receivedSize + (data.length : Int)) :
    processChunkFound uname progressLine transfers c data fileName isLastChunk
      k t =
      (some { t with
          receivedSize := t.receivedSize + (data.length : Int),
          status := "complete" },
        aerase
          (aput transfers k
            { t with
                receivedSize := t.receivedSize + (data.length : Int),
                status := "complete" })
          (transferKey uname
            { t with
                receivedSize := t.receivedSize + (data.length : Int),
                status := "complete" }),
        (t.receiver, chunkEnvelope (uname c) data fileName) ::
          (if (t.receivedSize + (data.length : Int)).tmod
              (t.fileSize.tdiv 10 + 1) = 0 ∨ isLastChunk = true then
            [(c, serverText (progressLine
              (t.receivedSize + (data.length : Int)) t.fileSize))]
          else []) ++
            [(c, senderDoneNotice fileName (uname t.receiver)),
             (t.receiver, receiverDoneNotice fileName (uname c))]) := by
  unfold processChunkFound
  rw [if_pos hdone]

theorem processChunkFound_incomplete (uname : Nat → String)
    (progressLine : Int → Int → String)
    (transfers : List (String × FileTransfer)) (c : Nat) (data : List Nat)
    (fileName : String) (isLastChunk : Bool) (k : String) (t : FileTransfer)
    (hdone : ¬(isLastChunk = true ∨
      t.fileSize ≤ t.receivedSize + (data.length : Int))) :
    processChunkFound uname progressLine transfers c data fileName isLastChunk
      k t =
      (some { t with receivedSize := t.receivedSize + (data.length : Int) },
        aput transfers k
          { t with receivedSize := t.receivedSize + (data.length : Int) },
        (t.receiver, chunkEnvelope (uname c) data fileName) ::
          (if (t.receivedSize + (data.length : Int)).tmod
              (t.fileSize.tdiv 10 + 1) = 0 ∨ isLastChunk = true then
            [(c, serverText (progressLine
              (t.receivedSize + (data.length : Int)) t.fileSize))]
          else [])) := by
  unfold processChunkFound
  rw [if_neg hdone]

/-- Claim C3: for an accepted transfer (the unique accepted entry from this
sender with this file name, consistently keyed), each relayed chunk's bytes
are forwarded verbatim to the receiver as a `file-chunk` envelope (the
first delivery of the call) and added to the received-byte count; when the
accumulated count reaches or exceeds the declared size, or the final-chunk
flag is set, the transfer is marked complete, sender and receiver are each
notified of completion exactly once, the entry is removed from the
registry, and any further chunk for it produces the "no active transfer"
notice; a chunk with no matching accepted transfer produces a notice to the
sender and is dropped. -/
theorem process_file_transfer_relay_and_completion (uname : Nat → String)
    (progressLine : Int → Int → String)
    (transfers : List (String × FileTransfer)) (c : Nat) (data : List Nat)
    (fileName : String) (isLastChunk : Bool) (k : String) (t : FileTransfer)
    (hfind : findAccepted transfers c fileName = some (k, t))
    (hnd : (transfers.map Prod.fst).Nodup)
    (hkey : k = transferKey uname t)
    (huniq : ∀ p ∈ transfers, p.2.sender = c → p.2.fileName = fileName →
      p.2.status = "accepted" → p = (k, t))
    (hprog : ∀ a b : Int, progressLine a b ≠
      (senderDoneNotice fileName (uname t.receiver)).content) :
    (ProcessFileTransfer uname progressLine transfers c data fileName
        isLastChunk).2.2.head? =
      some (t.receiver, chunkEnvelope (uname c) data fileName) ∧
    ((isLastChunk = true ∨
        t.fileSize ≤ t.receivedSize + (data.length : Int)) →
      ((ProcessFileTransfer uname progressLine transfers c data fileName
          isLastChunk).1 =
        some { t with
            receivedSize := t.receivedSize + (data.length : Int),
            status := "complete" } ∧
      alookup (ProcessFileTransfer uname progressLine transfers c data
          fileName isLastChunk).2.1 k = none ∧
      List.count (c, senderDoneNotice fileName (uname t.receiver))
        (ProcessFileTransfer uname progressLine transfers c data fileName
          isLastChunk).2.2 = 1 ∧
      List.count (t.receiver, receiverDoneNotice fileName (uname c))
        (ProcessFileTransfer uname progressLine transfers c data fileName
          isLastChunk).2.2 = 1 ∧
      (∀ (data' : List Nat) (isLast' : Bool),
        ProcessFileTransfer uname progressLine
            (ProcessFileTransfer uname progressLine transfers c data fileName
              isLastChunk).2.1 c data' fileName isLast' =
          (none,
            (ProcessFileTransfer uname progressLine transfers c data fileName
              isLastChunk).2.1,
            [(c, serverText
              "No active file transfer found. Recipient may not have accepted yet.")])))) ∧
    (¬(isLastChunk = true ∨
        t.fileSize ≤ t.receivedSize + (data.length : Int)) →
      ((ProcessFileTransfer uname progressLine transfers c data fileName
          isLastChunk).1 =
        some { t with
            receivedSize := t.receivedSize + (data.length : Int) } ∧
      alookup (ProcessFileTransfer uname progressLine transfers c data
          fileName isLastChunk).2.1 k =
        some { t with
            receivedSize := t.receivedSize + (data.length : Int) } ∧
      (ProcessFileTransfer uname progressLine transfers c data fileName
          isLastChunk).2.2 =
        (t.receiver, chunkEnvelope (uname c) data fileName) ::
          (if (t.receivedSize + (data.length : Int)).tmod
              (t.fileSize.tdiv 10 + 1) = 0 ∨ isLastChunk = true then
            [(c, serverText (progressLine
              (t.receivedSize + (data.length : Int)) t.fileSize))]
          else []))) ∧
    (∀ ts : List (String × FileTransfer),
      findAccepted ts c fileName = none →
      ProcessFileTransfer uname progressLine ts c data fileName isLastChunk =
        (none, ts,
          [(c, serverText
            "No active file transfer found. Recipient may not have accepted yet.")])) := by
  have hA := process_found uname progressLine transfers c data fileName
    isLastChunk k t hfind
  have hkmem : k ∈ transfers.map Prod.fst :=
    List.mem_map_of_mem Prod.fst (List.mem_of_find?_eq_some hfind)
  have hT1 : chunkEnvelope (uname c) data fileName ≠
      senderDoneNotice fileName (uname t.receiver) := fun h => by
    have h2 := congrArg Message.type h
    simp [chunkEnvelope, senderDoneNotice, serverText] at h2
  have hT2 : chunkEnvelope (uname c) data fileName ≠
      receiverDoneNotice fileName (uname c) := fun h => by
    have h2 := congrArg Message.type h
    simp [chunkEnvelope, receiverDoneNotice] at h2
  have hT3 : senderDoneNotice fileName (uname t.receiver) ≠
      receiverDoneNotice fileName (uname c) := fun h => by
    have h2 := congrArg Message.type h
    simp [senderDoneNotice, receiverDoneNotice, serverText] at h2
  have hT4 : serverText (progressLine (t.receivedSize + (data.length : Int))
      t.fileSize) ≠ senderDoneNotice fileName (uname t.receiver) := fun h =>
    hprog _ _ (congrArg Message.content h)
  have hT5 : serverText (progressLine (t.receivedSize + (data.length : Int))
      t.fileSize) ≠ receiverDoneNotice fileName (uname c) := fun h => by
    have h2 := congrArg Message.type h
    simp [serverText, receiverDoneNotice] at h2
  refine ⟨?_, ?_, ?_, ?_⟩
  · by_cases hdone : isLastChunk = true ∨
        t.fileSize ≤ t.receivedSize + (data.length : Int)
    · rw [hA, processChunkFound_complete uname progressLine transfers c data
        fileName isLastChunk k t hdone]
      rfl
    · rw [hA, processChunkFound_incomplete uname progressLine transfers c
        data fileName isLastChunk k t hdone]
      rfl
  · intro hdone
    have hB := processChunkFound_complete uname progressLine transfers c data
      fileName isLastChunk k t hdone
    have hkeyC : transferKey uname
        { t with
            receivedSize := t.receivedSize + (data.length : Int),
            status := "complete" } = k := by
      rw [hkey]
      rfl
    have hndput : ((aput transfers k
        { t with
            receivedSize := t.receivedSize + (data.length : Int),
            status := "complete" }).map Prod.fst).Nodup :=
      aput_keys_nodup_of_mem transfers k _ hkmem hnd
    have hreg : alookup (ProcessFileTransfer uname progressLine transfers c
        data fileName isLastChunk).2.1 k = none := by
      rw [hA, hB]
      show alookup (aerase _ (transferKey uname _)) k = none
      rw [hkeyC]
      exact alookup_aerase_self _ k hndput
    have hmem_after : ∀ p ∈ (ProcessFileTransfer uname progressLine transfers
        c data fileName isLastChunk).2.1, p ∈ transfers ∧ p.1 ≠ k := by
      intro p hp
      rw [hA, hB] at hp
      rw [hkeyC] at hp
      obtain ⟨hp₁, hp₂⟩ := mem_aerase _ k hndput p hp
      rcases mem_aput transfers k _ hnd p hp₁ with h | h
      · exact absurd (by rw [h]) hp₂
      · exact h
    have hfind_after : findAccepted (ProcessFileTransfer uname progressLine
        transfers c data fileName isLastChunk).2.1 c fileName = none := by
      rw [findAccepted, List.find?_eq_none]
      intro p hp hpred
      obtain ⟨hpmem, hpk⟩ := hmem_after p hp
      simp only [Bool.and_eq_true, beq_iff_eq] at hpred
      exact hpk (congrArg Prod.fst
        (huniq p hpmem hpred.1.1 hpred.1.2 hpred.2))
    refine ⟨by rw [hA, hB], hreg, ?_, ?_, ?_⟩
    · rw [hA, hB]
      show List.count _ ((t.receiver, chunkEnvelope (uname c) data fileName)
        :: (if _ then _ else _) ++ _) = 1
      by_cases hpc : (t.receivedSize + (data.length : Int)).tmod
          (t.fileSize.tdiv 10 + 1) = 0 ∨ isLastChunk = true
      · rw [if_pos hpc]
        simp [List.count_cons, beq_iff_eq, Prod.mk.injEq, hT1, hT4,
          Ne.symm hT3]
      · rw [if_neg hpc]
        simp [List.count_cons, beq_iff_eq, Prod.mk.injEq, hT1, hT4,
          Ne.symm hT3]
    · rw [hA, hB]
      show List.count _ ((t.receiver, chunkEnvelope (uname c) data fileName)
        :: (if _ then _ else _) ++ _) = 1
      by_cases hpc : (t.receivedSize + (data.length : Int)).tmod
          (t.fileSize.tdiv 10 + 1) = 0 ∨ isLastChunk = true
      · rw [if_pos hpc]
        simp [List.count_cons, beq_iff_eq, Prod.mk.injEq, hT2, hT3, hT5]
      · rw [if_neg hpc]
        simp [List.count_cons, beq_iff_eq, Prod.mk.injEq, hT2, hT3, hT5]
    · intro data' isLast'
      exact process_not_found uname progressLine _ c data' fileName isLast'
        hfind_after
  · intro hdone
    have hB := processChunkFound_incomplete uname progressLine transfers c
      data fileName isLastChunk k t hdone
    refine ⟨by rw [hA, hB], ?_, by rw [hA, hB]⟩
    rw [hA, hB]
    exact alookup_aput_self _ _ _
  · intro ts h
    exact process_not_found uname progressLine ts c data fileName isLastChunk h

/-- Concrete run of C3: alice (1) relays a single final 10-byte chunk for
the accepted 10-byte transfer of "f.txt" to bob (2): bob receives the chunk
and exactly one completion envelope, alice exactly one completion notice,
the entry disappears, and a further chunk is refused. -/
theorem process_file_transfer_relay_and_completion_witness :
    findAccepted [("alice_bob_f.txt", wAccepted)] 1 "f.txt" =
      some ("alice_bob_f.txt", wAccepted) ∧
    List.count (1, senderDoneNotice "f.txt" "bob")
      (ProcessFileTransfer wUname (fun _ _ => "progress")
        [("alice_bob_f.txt", wAccepted)] 1 (List.replicate 10 7) "f.txt"
        true).2.2 = 1 ∧
    List.count (2, receiverDoneNotice "f.txt" "alice")
      (ProcessFileTransfer wUname (fun _ _ => "progress")
        [("alice_bob_f.txt", wAccepted)] 1 (List.replicate 10 7) "f.txt"
        true).2.2 = 1 ∧
    alookup (ProcessFileTransfer wUname (fun _ _ => "progress")
        [("alice_bob_f.txt", wAccepted)] 1 (List.replicate 10 7) "f.txt"
        true).2.1 "alice_bob_f.txt" = none ∧
    ProcessFileTransfer wUname (fun _ _ => "progress")
        (ProcessFileTransfer wUname (fun _ _ => "progress")
          [("alice_bob_f.txt", wAccepted)] 1 (List.replicate 10 7) "f.txt"
          true).2.1 1 [3] "f.txt" false =
      (none,
        (ProcessFileTransfer wUname (fun _ _ => "progress")
          [("alice_bob_f.txt", wAccepted)] 1 (List.replicate 10 7) "f.txt"
          true).2.1,
        [(1, serverText
          "No active file transfer found. Recipient may not have accepted yet.")]) := by
  have h := process_file_transfer_relay_and_completion wUname
    (fun _ _ => "progress") [("alice_bob_f.txt", wAccepted)] 1
    (List.replicate 10 7) "f.txt" true "alice_bob_f.txt" wAccepted
    (by decide) (by decide) (by decide) (by decide)
    (fun a b =>
      (by decide :
        ¬("progress" : String) =
          "File f.txt transferred successfully to bob"))
  have h2 := h.2.1 (Or.inl rfl)
  exact ⟨by decide, h2.2.2.1, h2.2.2.2.1, h2.2.1, h2.2.2.2.2 [3] false⟩

/-! ## Room membership invariant: claim C7 -/

theorem alookup_append {β : Type} (l₁ l₂ : List (String × β)) (k : String) :
    alookup (l₁ ++ l₂) k =
      match alookup l₁ k with
      | some v => some v
      | none => alookup l₂ k := by
  induction l₁ with
  | nil => rfl
  | cons p rest ih =>
    obtain ⟨k', v⟩ := p
    by_cases hk : k' = k
    · simp only [List.cons_append, alookup, if_pos hk]
    · simp only [List.cons_append, alookup, if_neg hk]
      exact ih

theorem alookup_of_mem_of_nodup {β : Type} (l : List (String × β))
    (k : String) (v : β) (hmem : (k, v) ∈ l)
    (hnd : (l.map Prod.fst).Nodup) : alookup l k = some v := by
  induction l with
  | nil => cases hmem
  | cons p rest ih =>
    obtain ⟨k', w⟩ := p
    simp only [List.map_cons, List.nodup_cons] at hnd
    rcases List.mem_cons.1 hmem with h | h
    · obtain ⟨h₁, h₂⟩ := Prod.mk.injEq .. ▸ h.symm
      rw [alookup, if_pos h₁, h₂]
    · have hk : k' ≠ k := by
        intro he
        exact hnd.1 (he ▸ List.mem_map_of_mem Prod.fst h)
      rw [alookup, if_neg hk]
      exact ih h hnd.2

theorem trySend_some_flags (st : CState) (msg : Message) (st' : CState)
    (h : trySend st msg = some st') :
    st'.authenticated = st.authenticated ∧
    st'.currentRoom = st.currentRoom ∧
    st'.username = st.username := by
  rw [trySend] at h
  by_cases hc : st.sendClosed = false ∧ st.send.length < sendCap
  · rw [if_pos hc] at h
    have := Option.some.inj h
    rw [← this]
    exact ⟨rfl, rfl, rfl⟩
  · rw [if_neg hc] at h
    exact Option.noConfusion h

theorem notifyMembers_preserves_flags (cs : Nat → CState)
    (members : List Nat) (msg : Message) (skip : Option Nat) (x : Nat) :
    ((notifyMembers cs members msg skip).1 x).authenticated =
      (cs x).authenticated ∧
    ((notifyMembers cs members msg skip).1 x).currentRoom =
      (cs x).currentRoom ∧
    ((notifyMembers cs members msg skip).1 x).username = (cs x).username := by
  induction members generalizing cs with
  | nil => exact ⟨rfl, rfl, rfl⟩
  | cons m rest ih =>
    rcases notifyMembers_cases cs m rest msg skip with
      ⟨_, he⟩ | ⟨_, _, he⟩ | ⟨st, _, _, hts, he⟩ | ⟨_, _, _, he⟩
    · rw [he]; exact ih cs
    · rw [he]; exact ih cs
    · rw [he]
      obtain ⟨f₁, f₂, f₃⟩ := ih (updateCS cs m st)
      obtain ⟨g₁, g₂, g₃⟩ := trySend_some_flags (cs m) msg st hts
      by_cases hxm : x = m
      · subst hxm
        refine ⟨?_, ?_, ?_⟩
        · show ((notifyMembers (updateCS cs x st) rest msg skip).1 x).authenticated = _
          rw [f₁, updateCS, if_pos rfl, g₁]
        · show ((notifyMembers (updateCS cs x st) rest msg skip).1 x).currentRoom = _
          rw [f₂, updateCS, if_pos rfl, g₂]
        · show ((notifyMembers (updateCS cs x st) rest msg skip).1 x).username = _
          rw [f₃, updateCS, if_pos rfl, g₃]
      · refine ⟨?_, ?_, ?_⟩
        · show ((notifyMembers (updateCS cs m st) rest msg skip).1 x).authenticated = _
          rw [f₁, updateCS, if_neg hxm]
        · show ((notifyMembers (updateCS cs m st) rest msg skip).1 x).currentRoom = _
          rw [f₂, updateCS, if_neg hxm]
        · show ((notifyMembers (updateCS cs m st) rest msg skip).1 x).username = _
          rw [f₃, updateCS, if_neg hxm]
    · rw [he]; exact ih cs

theorem AddClient_preserves_flags (cs : Nat → CState) (roomName : String)
    (members : List Nat) (client : Nat) (x : Nat) :
    ((AddClient cs roomName members client).1 x).authenticated =
      (cs x).authenticated ∧
    ((AddClient cs roomName members client).1 x).currentRoom =
      (cs x).currentRoom ∧
    ((AddClient cs roomName members client).1 x).username =
      (cs x).username := by
  rw [AddClient]
  exact notifyMembers_preserves_flags _ _ _ _ x

theorem RemoveClient_preserves_flags (cs : Nat → CState) (roomName : String)
    (members : List Nat) (client : Nat) (x : Nat) :
    ((RemoveClient cs roomName members client).1 x).authenticated =
      (cs x).authenticated ∧
    ((RemoveClient cs roomName members client).1 x).currentRoom =
      (cs x).currentRoom ∧
    ((RemoveClient cs roomName members client).1 x).username =
      (cs x).username := by
  by_cases hc : client ∈ members
  · rw [RemoveClient, if_pos hc]
    exact notifyMembers_preserves_flags _ _ _ _ x
  · rw [RemoveClient, if_neg hc]
    exact ⟨rfl, rfl, rfl⟩

theorem AddClient_members_subset (cs : Nat → CState) (roomName : String)
    (members : List Nat) (client : Nat) (x : Nat)
    (hx : x ∈ (AddClient cs roomName members client).2) :
    x ∈ members ∨ x = client := by
  rw [AddClient] at hx
  have hsub := notifyMembers_members_sublist cs
    (if client ∈ members then members else members ++ [client])
    (joinNotice roomName (cs client).username) (some client)
  have hx' := List.Sublist.mem hx hsub
  by_cases hc : client ∈ members
  · rw [if_pos hc] at hx'
    exact Or.inl hx'
  · rw [if_neg hc] at hx'
    rcases List.mem_append.1 hx' with h | h
    · exact Or.inl h
    · exact Or.inr (List.mem_singleton.1 h)

theorem AddClient_mem_client (cs : Nat → CState) (roomName : String)
    (members : List Nat) (client : Nat) :
    client ∈ (AddClient cs roomName members client).2 := by
  rw [AddClient]
  refine notifyMembers_members_skip_kept _ _ _ _ ?_
  by_cases hc : client ∈ members
  · rw [if_pos hc]; exact hc
  · rw [if_neg hc]
    exact List.mem_append.2 (Or.inr (List.mem_singleton.2 rfl))

theorem AddClient_members_nodup (cs : Nat → CState) (roomName : String)
    (members : List Nat) (client : Nat) (hnd : members.Nodup) :
    (AddClient cs roomName members client).2.Nodup := by
  rw [AddClient]
  refine List.Sublist.nodup (notifyMembers_members_sublist _ _ _ _) ?_
  by_cases hc : client ∈ members
  · rw [if_pos hc]; exact hnd
  · rw [if_neg hc]
    exact hnd.append (List.nodup_singleton client) (by simpa using hc)

theorem RemoveClient_members_subset (cs : Nat → CState) (roomName : String)
    (members : List Nat) (client : Nat) (x : Nat)
    (hx : x ∈ (RemoveClient cs roomName members client).2) : x ∈ members := by
  by_cases hc : client ∈ members
  · rw [RemoveClient, if_pos hc] at hx
    exact List.Sublist.mem
      (List.Sublist.mem hx (notifyMembers_members_sublist _ _ _ _))
      (List.erase_sublist client members)
  · rw [RemoveClient, if_neg hc] at hx
    exact hx

theorem RemoveClient_not_mem_self (cs : Nat → CState) (roomName : String)
    (members : List Nat) (client : Nat) (hnd : members.Nodup) :
    client ∉ (RemoveClient cs roomName members client).2 := by
  by_cases hc : client ∈ members
  · rw [RemoveClient, if_pos hc]
    intro hx
    exact hnd.not_mem_erase
      (List.Sublist.mem hx (notifyMembers_members_sublist _ _ _ _))
  · rw [RemoveClient, if_neg hc]
    exact hc

theorem RemoveClient_members_nodup (cs : Nat → CState) (roomName : String)
    (members : List Nat) (client : Nat) (hnd : members.Nodup) :
    (RemoveClient cs roomName members client).2.Nodup := by
  by_cases hc : client ∈ members
  · rw [RemoveClient, if_pos hc]
    exact List.Sublist.nodup (notifyMembers_members_sublist _ _ _ _)
      (hnd.erase client)
  · rw [RemoveClient, if_neg hc]
    exact hnd

theorem roomInv_of_flags_eq (cs cs' : Nat → CState)
    (rooms : List (String × List Nat))
    (h : ∀ x, (cs' x).authenticated = (cs x).authenticated ∧
      (cs' x).currentRoom = (cs x).currentRoom)
    (hInv : roomInv cs rooms) : roomInv cs' rooms := by
  obtain ⟨h1, h2, hkeys, hempty⟩ := hInv
  refine ⟨?_, ?_, hkeys, hempty⟩
  · intro r ms hlk
    refine ⟨?_, (h1 r ms hlk).2⟩
    intro x hx
    obtain ⟨ha, hc⟩ := (h1 r ms hlk).1 x hx
    exact ⟨(h x).1.trans ha, (h x).2.trans hc⟩
  · intro x hx
    rw [(h x).1] at hx
    rw [(h x).2]
    exact h2 x hx

theorem roomInv_joinAdd (cs : Nat → CState)
    (rooms : List (String × List Nat)) (c : Nat) (roomName : String)
    (hInv : roomInv cs rooms) (hrn : roomName ≠ "")
    (hcauth : (cs c).authenticated = true)
    (hccur : (cs c).currentRoom = roomName)
    (hcfree : ∀ r' ms', alookup rooms r' = some ms' → c ∉ ms') :
    roomInv (joinAdd cs rooms c roomName).1
      (joinAdd cs rooms c roomName).2 := by
  obtain ⟨h1, h2, hkeys, hempty⟩ := hInv
  cases hg : alookup rooms roomName with
  | none =>
    unfold joinAdd
    rw [hg]
    exact ⟨h1, h2, hkeys, hempty⟩
  | some ms =>
    unfold joinAdd
    rw [hg]
    refine ⟨?_, ?_, ?_, ?_⟩
    · intro r ms₀ hlk
      by_cases hr : r = roomName
      · subst hr
        rw [alookup_aput_self] at hlk
        have hms₀ : ms₀ = (AddClient cs r ms c).2 := (Option.some.inj hlk).symm
        subst hms₀
        constructor
        · intro x hx
          have hflags := AddClient_preserves_flags cs r ms c x
          rcases AddClient_members_subset cs r ms c x hx with hxm | hxc
          · obtain ⟨ha, hc'⟩ := (h1 r ms hg).1 x hxm
            exact ⟨by rw [hflags.1]; exact ha, by rw [hflags.2.1]; exact hc'⟩
          · subst hxc
            exact ⟨by rw [hflags.1]; exact hcauth,
              by rw [hflags.2.1]; exact hccur⟩
        · exact AddClient_members_nodup cs r ms c (h1 r ms hg).2
      · rw [alookup_aput_other _ _ _ _ hr] at hlk
        constructor
        · intro x hx
          have hflags := AddClient_preserves_flags cs roomName ms c x
          obtain ⟨ha, hc'⟩ := (h1 r ms₀ hlk).1 x hx
          exact ⟨by rw [hflags.1]; exact ha, by rw [hflags.2.1]; exact hc'⟩
        · exact (h1 r ms₀ hlk).2
    · intro x hx
      have hflags := AddClient_preserves_flags cs roomName ms c x
      rw [hflags.1] at hx
      rw [hflags.2.1]
      exact h2 x hx
    · rw [aput_keys_of_mem]
      · exact hkeys
      · exact (alookup_isSome_iff_mem_keys rooms roomName).1 (by rw [hg]; rfl)
    · rw [alookup_aput_other _ _ _ _ (fun h => hrn h.symm)]
      exact hempty

theorem roomInv_joinCreate (cs : Nat → CState)
    (rooms : List (String × List Nat)) (roomName : String)
    (hInv : roomInv cs rooms) (hrn : roomName ≠ "") :
    roomInv cs (joinCreate rooms roomName) ∧
    (∀ r' ms', alookup (joinCreate rooms roomName) r' = some ms' →
      alookup rooms r' = some ms' ∨ ms' = []) := by
  obtain ⟨h1, h2, hkeys, hempty⟩ := hInv
  cases hg : alookup rooms roomName with
  | some ms =>
    unfold joinCreate
    rw [hg]
    exact ⟨⟨h1, h2, hkeys, hempty⟩, fun r' ms' h => Or.inl h⟩
  | none =>
    unfold joinCreate
    rw [hg]
    have hnew : ∀ r' ms', alookup (rooms ++ [(roomName, [])]) r' = some ms' →
        alookup rooms r' = some ms' ∨ ms' = [] := by
      intro r' ms' h
      rw [alookup_append] at h
      cases hl : alookup rooms r' with
      | some v =>
        rw [hl] at h
        exact Or.inl h
      | none =>
        rw [hl] at h
        by_cases hr : roomName = r'
        · rw [alookup, if_pos hr] at h
          exact Or.inr (Option.some.inj h).symm
        · rw [alookup, if_neg hr] at h
          exact Option.noConfusion h
    refine ⟨⟨?_, h2, ?_, ?_⟩, hnew⟩
    · intro r ms hlk
      rcases hnew r ms hlk with h | h
      · exact h1 r ms h
      · subst h
        exact ⟨fun x hx => absurd hx (List.not_mem_nil x), List.nodup_nil⟩
    · rw [List.map_append]
      refine hkeys.append (List.nodup_singleton roomName) ?_
      intro a ha hb
      simp only [List.map_cons, List.map_nil, List.mem_singleton] at hb
      rw [hb] at ha
      have := (alookup_isSome_iff_mem_keys rooms roomName).2 ha
      rw [hg] at this
      exact Bool.noConfusion this
    · rw [alookup_append, hempty, alookup, if_neg hrn]
      rfl

theorem roomInv_joinLeave (cs : Nat → CState)
    (rooms : List (String × List Nat)) (c : Nat)
    (hInv : roomInv cs rooms) :
    roomInv (joinLeave cs rooms c).1 (joinLeave cs rooms c).2 ∧
    (∀ x, ((joinLeave cs rooms c).1 x).authenticated =
        (cs x).authenticated ∧
      ((joinLeave cs rooms c).1 x).currentRoom = (cs x).currentRoom) ∧
    (∀ r' ms', alookup (joinLeave cs rooms c).2 r' = some ms' →
      c ∉ ms') := by
  obtain ⟨h1, h2, hkeys, hempty⟩ := hInv
  by_cases hcur : (cs c).currentRoom ≠ ""
  · cases hg : alookup rooms ((cs c).currentRoom) with
    | some ms =>
      have hmsnd : ms.Nodup := (h1 _ ms hg).2
      have hjl : joinLeave cs rooms c =
          ((RemoveClient cs ((cs c).currentRoom) ms c).1,
            aput rooms ((cs c).currentRoom)
              (RemoveClient cs ((cs c).currentRoom) ms c).2) := by
        unfold joinLeave
        rw [if_pos hcur, hg]
      rw [hjl]
      have hflags := fun x =>
        RemoveClient_preserves_flags cs ((cs c).currentRoom) ms c x
      refine ⟨⟨?_, ?_, ?_, ?_⟩, ?_, ?_⟩
      · intro r ms₀ hlk
        by_cases hr : r = (cs c).currentRoom
        · rw [hr, alookup_aput_self] at hlk
          have hms₀ : ms₀ =
              (RemoveClient cs ((cs c).currentRoom) ms c).2 :=
            (Option.some.inj hlk).symm
          subst hms₀
          constructor
          · intro x hx
            obtain ⟨ha, hc'⟩ := (h1 _ ms hg).1 x
              (RemoveClient_members_subset cs _ ms c x hx)
            refine ⟨by rw [(hflags x).1]; exact ha, ?_⟩
            rw [(hflags x).2.1, hr]
            exact hc'
          · exact RemoveClient_members_nodup cs _ ms c hmsnd
        · rw [alookup_aput_other _ _ _ _ hr] at hlk
          constructor
          · intro x hx
            obtain ⟨ha, hc'⟩ := (h1 r ms₀ hlk).1 x hx
            exact ⟨by rw [(hflags x).1]; exact ha,
              by rw [(hflags x).2.1]; exact hc'⟩
          · exact (h1 r ms₀ hlk).2
      · intro x hx
        rw [(hflags x).1] at hx
        rw [(hflags x).2.1]
        exact h2 x hx
      · rw [aput_keys_of_mem]
        · exact hkeys
        · exact (alookup_isSome_iff_mem_keys rooms _).1 (by rw [hg]; rfl)
      · have hne : ("" : String) ≠ (cs c).currentRoom := fun h => hcur h.symm
        rw [alookup_aput_other _ _ _ _ hne]
        exact hempty
      · intro x
        exact ⟨(hflags x).1, (hflags x).2.1⟩
      · intro r' ms' hlk
        by_cases hr : r' = (cs c).currentRoom
        · rw [hr, alookup_aput_self] at hlk
          have hms' : ms' =
              (RemoveClient cs ((cs c).currentRoom) ms c).2 :=
            (Option.some.inj hlk).symm
          subst hms'
          exact RemoveClient_not_mem_self cs _ ms c hmsnd
        · rw [alookup_aput_other _ _ _ _ hr] at hlk
          intro hx
          exact hr ((h1 r' ms' hlk).1 c hx).2.symm
    | none =>
      have hjl : joinLeave cs rooms c = (cs, rooms) := by
        unfold joinLeave
        rw [if_pos hcur, hg]
      rw [hjl]
      refine ⟨⟨h1, h2, hkeys, hempty⟩, fun x => ⟨rfl, rfl⟩, ?_⟩
      intro r' ms' hlk hx
      have hr' : r' = (cs c).currentRoom := ((h1 r' ms' hlk).1 c hx).2.symm
      rw [hr', hg] at hlk
      exact Option.noConfusion hlk
  · have hjl : joinLeave cs rooms c = (cs, rooms) := by
      unfold joinLeave
      rw [if_neg hcur]
    rw [hjl]
    push_neg at hcur
    refine ⟨⟨h1, h2, hkeys, hempty⟩, fun x => ⟨rfl, rfl⟩, ?_⟩
    intro r' ms' hlk hx
    have hr' : r' = (cs c).currentRoom := ((h1 r' ms' hlk).1 c hx).2.symm
    rw [hr', hcur] at hlk
    rw [hempty] at hlk
    exact Option.noConfusion hlk

theorem joinConfirm_flags (cs : Nat → CState) (c : Nat) (roomName : String)
    (x : Nat) :
    ((joinConfirm cs c roomName) x).authenticated = (cs x).authenticated ∧
    ((joinConfirm cs c roomName) x).currentRoom = (cs x).currentRoom := by
  unfold joinConfirm
  cases hts : trySend (cs c)
      (serverText ("You have joined room: " ++ roomName)) with
  | some st =>
    obtain ⟨g₁, g₂, _⟩ := trySend_some_flags _ _ _ hts
    constructor
    · show (updateCS cs c st x).authenticated = (cs x).authenticated
      rw [updateCS]
      by_cases hxc : x = c
      · rw [if_pos hxc, g₁, hxc]
      · rw [if_neg hxc]
    · show (updateCS cs c st x).currentRoom = (cs x).currentRoom
      rw [updateCS]
      by_cases hxc : x = c
      · rw [if_pos hxc, g₂, hxc]
      · rw [if_neg hxc]
  | none => exact ⟨rfl, rfl⟩

theorem roomInv_set_current (cs : Nat → CState)
    (rooms : List (String × List Nat)) (c : Nat) (roomName : String)
    (hInv : roomInv cs rooms)
    (hfree : ∀ r' ms', alookup rooms r' = some ms' → c ∉ ms')
    (hcauth : (cs c).authenticated = true) :
    roomInv (updateCS cs c { cs c with currentRoom := roomName }) rooms := by
  obtain ⟨h1, h2, hkeys, hempty⟩ := hInv
  refine ⟨?_, ?_, hkeys, hempty⟩
  · intro r ms hlk
    refine ⟨?_, (h1 r ms hlk).2⟩
    intro x hx
    have hxc : x ≠ c := fun he => hfree r ms hlk (he ▸ hx)
    obtain ⟨ha, hc'⟩ := (h1 r ms hlk).1 x hx
    exact ⟨by rw [updateCS, if_neg hxc]; exact ha,
      by rw [updateCS, if_neg hxc]; exact hc'⟩
  · intro x hx
    by_cases hxc : x = c
    · rw [hxc, updateCS, if_pos rfl] at hx
      have hx' : (cs c).authenticated = false := hx
      rw [hcauth] at hx'
      exact Bool.noConfusion hx'
    · rw [updateCS, if_neg hxc] at hx ⊢
      exact h2 x hx

theorem joinStep_preserves_roomInv (sys : Sys) (c : Nat) (roomName : String)
    (hInv : roomInv sys.cs sys.rooms) (hrn : roomName ≠ "") :
    roomInv (joinStep sys c roomName).1.cs
      (joinStep sys c roomName).1.rooms := by
  by_cases hauth : (sys.cs c).authenticated = false
  · rw [joinStep, if_pos hauth]
    exact hInv
  · have hauth' : (sys.cs c).authenticated = true := by
      revert hauth
      cases (sys.cs c).authenticated <;> simp
    rw [joinStep, if_neg hauth]
    obtain ⟨hc1, _⟩ := roomInv_joinCreate sys.cs sys.rooms roomName hInv hrn
    obtain ⟨hl1, hlflags, hlfree⟩ :=
      roomInv_joinLeave sys.cs (joinCreate sys.rooms roomName) c hc1
    have hauth₁ : ((joinLeave sys.cs (joinCreate sys.rooms roomName)
        c).1 c).authenticated = true := by
      rw [(hlflags c).1]
      exact hauth'
    have hInv₂ := roomInv_set_current _ _ c roomName hl1 hlfree hauth₁
    have hcauth₂ : ((updateCS (joinLeave sys.cs (joinCreate sys.rooms
        roomName) c).1 c
        { (joinLeave sys.cs (joinCreate sys.rooms roomName) c).1 c with
            currentRoom := roomName }) c).authenticated = true := by
      rw [updateCS, if_pos rfl]
      exact hauth₁
    have hccur₂ : ((updateCS (joinLeave sys.cs (joinCreate sys.rooms
        roomName) c).1 c
        { (joinLeave sys.cs (joinCreate sys.rooms roomName) c).1 c with
            currentRoom := roomName }) c).currentRoom = roomName := by
      rw [updateCS, if_pos rfl]
    have hadd := roomInv_joinAdd _ _ c roomName hInv₂ hrn hcauth₂ hccur₂
      hlfree
    exact roomInv_of_flags_eq _ _ _
      (fun x => joinConfirm_flags _ c roomName x) hadd

theorem loginStep_preserves_roomInv (hash : String → String) (sys : Sys)
    (c : Nat) (u p : String) (hInv : roomInv sys.cs sys.rooms)
    (hna : (sys.cs c).authenticated = false) :
    roomInv (loginStep hash sys c u p).1.cs
      (loginStep hash sys c u p).1.rooms := by
  obtain ⟨h1, h2, hkeys, hempty⟩ := hInv
  have hfree : ∀ r' ms', alookup sys.rooms r' = some ms' → c ∉ ms' := by
    intro r' ms' hlk hx
    have := ((h1 r' ms' hlk).1 c hx).1
    rw [hna] at this
    exact Bool.noConfusion this
  have hcs₁ : roomInv (updateCS sys.cs c
      { sys.cs c with username := u, authenticated := true }) sys.rooms := by
    refine ⟨?_, ?_, hkeys, hempty⟩
    · intro r ms hlk
      refine ⟨?_, (h1 r ms hlk).2⟩
      intro x hx
      have hxc : x ≠ c := fun he => hfree r ms hlk (he ▸ hx)
      obtain ⟨ha, hc'⟩ := (h1 r ms hlk).1 x hx
      exact ⟨by rw [updateCS, if_neg hxc]; exact ha,
        by rw [updateCS, if_neg hxc]; exact hc'⟩
    · intro x hx
      by_cases hxc : x = c
      · rw [hxc, updateCS, if_pos rfl] at hx
        exact Bool.noConfusion hx
      · rw [updateCS, if_neg hxc] at hx ⊢
        exact h2 x hx
  have hcauth : ((updateCS sys.cs c
      { sys.cs c with username := u, authenticated := true })
      c).authenticated = true := by
    rw [updateCS, if_pos rfl]
  have hccur : ((updateCS sys.cs c
      { sys.cs c with username := u, authenticated := true })
      c).currentRoom = "general" := by
    rw [updateCS, if_pos rfl]
    exact h2 c hna
  have hadd := roomInv_joinAdd _ sys.rooms c "general" hcs₁ (by decide)
    hcauth hccur hfree
  by_cases hauth : AuthenticateUser hash sys.users u p = true
  · rw [loginStep, if_pos hauth]
    exact hadd
  · rw [loginStep, if_neg hauth]
    by_cases hreg : (RegisterUser hash sys.users u p).2 = true
    · rw [if_pos hreg]
      exact hadd
    · rw [if_neg hreg]
      exact ⟨h1, h2, hkeys, hempty⟩

theorem step_preserves_roomInv (hash : String → String) (sys : Sys)
    (op : Op) (hInv : roomInv sys.cs sys.rooms) (hok : okOp sys op) :
    roomInv (step hash sys op).1.cs (step hash sys op).1.rooms := by
  cases op with
  | login c u p => exact loginStep_preserves_roomInv hash sys c u p hInv hok
  | join c r => exact joinStep_preserves_roomInv sys c r hInv hok

theorem runOps_preserves_roomInv (hash : String → String) (ops : List Op)
    (sys : Sys) (hInv : roomInv sys.cs sys.rooms)
    (hok : okTrace hash sys ops) :
    roomInv (runOps hash sys ops).cs (runOps hash sys ops).rooms := by
  induction ops generalizing sys with
  | nil => exact hInv
  | cons op rest ih =>
    exact ih (step hash sys op).1
      (step_preserves_roomInv hash sys op hInv hok.1) hok.2

theorem roomInv_at_most_one_room (cs : Nat → CState)
    (rooms : List (String × List Nat)) (hInv : roomInv cs rooms) (x : Nat)
    (r₁ r₂ : String) (ms₁ ms₂ : List Nat) (h₁ : (r₁, ms₁) ∈ rooms)
    (h₂ : (r₂, ms₂) ∈ rooms) (hx₁ : x ∈ ms₁) (hx₂ : x ∈ ms₂) : r₁ = r₂ := by
  obtain ⟨hm, _, hkeys, _⟩ := hInv
  have l₁ := alookup_of_mem_of_nodup rooms r₁ ms₁ h₁ hkeys
  have l₂ := alookup_of_mem_of_nodup rooms r₂ ms₂ h₂ hkeys
  have c₁ := ((hm r₁ ms₁ l₁).1 x hx₁).2
  have c₂ := ((hm r₂ ms₂ l₂).1 x hx₂).2
  rw [← c₁, ← c₂]

/-- Counterexample to claim C7 as stated: starting from a fresh session and
the `general` room, the command sequence login, `/join r2`, login again
leaves session 1 in the member sets of BOTH `general` and `r2` at the same
instant — `/login` has no authenticated-guard and re-adds the session to
`general` without leaving its current room. -/
theorem double_login_two_rooms_cex :
    (runOps (fun s => s) sysC7
        [Op.login 1 "alice" "p", Op.join 1 "r2",
          Op.login 1 "alice" "p"]).rooms =
      [("general", [1]), ("r2", [1])] ∧
    alookup (runOps (fun s => s) sysC7
        [Op.login 1 "alice" "p", Op.join 1 "r2",
          Op.login 1 "alice" "p"]).rooms "general" = some [1] ∧
    alookup (runOps (fun s => s) sysC7
        [Op.login 1 "alice" "p", Op.join 1 "r2",
          Op.login 1 "alice" "p"]).rooms "r2" = some [1] ∧
    ("general" : String) ≠ "r2" := by
  exact ⟨by decide, by decide, by decide, by decide⟩

/-- Claim C7 amended: for command sequences in which a session only issues
`/login` while not yet authenticated (and `/join` names are nonempty, as
`strings.Fields` tokens are), every session is a member of at most one
room's member set at any observed instant: the membership invariant
`roomInv` holds initially, is preserved by every step, and implies that a
session sits in at most one room.  A repeated `/login` by an
already-authenticated session can violate this (see the counterexample). -/
theorem join_preserves_single_room_invariant (hash : String → String) :
    roomInv sysC7.cs sysC7.rooms ∧
    (∀ sys op, roomInv sys.cs sys.rooms → okOp sys op →
      roomInv (step hash sys op).1.cs (step hash sys op).1.rooms) ∧
    (∀ sys ops, roomInv sys.cs sys.rooms → okTrace hash sys ops →
      roomInv (runOps hash sys ops).cs (runOps hash sys ops).rooms) ∧
    (∀ cs rooms, roomInv cs rooms →
      ∀ x r₁ r₂ ms₁ ms₂, (r₁, ms₁) ∈ rooms → (r₂, ms₂) ∈ rooms →
        x ∈ ms₁ → x ∈ ms₂ → r₁ = r₂) := by
  refine ⟨⟨?_, fun x _ => rfl, by decide, by decide⟩, ?_, ?_, ?_⟩
  · intro r ms hlk
    have hms : ms = [] := by
      by_cases h : ("general" : String) = r
      · rw [show sysC7.rooms = [("general", [])] from rfl, alookup,
          if_pos h] at hlk
        exact (Option.some.inj hlk).symm
      · rw [show sysC7.rooms = [("general", [])] from rfl, alookup,
          if_neg h] at hlk
        exact Option.noConfusion hlk
    subst hms
    exact ⟨fun x hx => absurd hx (List.not_mem_nil x), List.nodup_nil⟩
  · exact fun sys op => step_preserves_roomInv hash sys op
  · exact fun sys ops hInv hok => runOps_preserves_roomInv hash ops sys hInv hok
  · exact fun cs rooms hInv x r₁ r₂ ms₁ ms₂ =>
      roomInv_at_most_one_room cs rooms hInv x r₁ r₂ ms₁ ms₂

/-- Concrete run of the amended C7: the trace login-then-join keeps the
invariant, and in the resulting state session 1 is in `r2` only. -/
theorem join_preserves_single_room_invariant_witness :
    okTrace (fun s => s) sysC7 [Op.login 1 "alice" "p", Op.join 1 "r2"] ∧
    roomInv
      (runOps (fun s => s) sysC7
        [Op.login 1 "alice" "p", Op.join 1 "r2"]).cs
      (runOps (fun s => s) sysC7
        [Op.login 1 "alice" "p", Op.join 1 "r2"]).rooms ∧
    (runOps (fun s => s) sysC7
        [Op.login 1 "alice" "p", Op.join 1 "r2"]).rooms =
      [("general", []), ("r2", [1])] := by
  have h := join_preserves_single_room_invariant (fun s => s)
  have hok : okTrace (fun s => s) sysC7
      [Op.login 1 "alice" "p", Op.join 1 "r2"] :=
    ⟨(by decide : (sysC7.cs 1).authenticated = false),
      (by decide : ("r2" : String) ≠ ""), trivial⟩
  exact ⟨hok, h.2.2.1 sysC7 _ h.1 hok, by decide⟩

/-! ## Claim C10: a doubly-failed `/login` leaves the session unchanged -/

/-- Claim C10: if the username already exists with a password whose hash
differs from the supplied one, `/login` fails both authentication and
registration and the whole server state is unchanged — the session's
authenticated flag, username, queue and room memberships stay as they were,
and the only effect is a single direct "Invalid credentials" notice to the
caller (nothing is closed, so the connection stays open). -/
theorem failed_login_leaves_state_unchanged (hash : String → String)
    (sys : Sys) (c : Nat) (u p h0 : String)
    (hstored : lookupUser sys.users u = some h0)
    (hdiff : h0 ≠ hash p) :
    loginStep hash sys c u p =
      (sys, [(c, serverText "Invalid credentials")]) := by
  have hauth : AuthenticateUser hash sys.users u p = false := by
    rw [AuthenticateUser, hstored]
    exact decide_eq_false hdiff
  have hreg : (RegisterUser hash sys.users u p).2 = false := by
    rw [RegisterUser, hstored]
  rw [loginStep, if_neg (by rw [hauth]; exact Bool.false_ne_true),
    if_neg (by rw [hreg]; exact Bool.false_ne_true)]

/-- Concrete run of C10: "alice" is registered with hash "p1"; a login as
alice with the wrong password changes nothing and yields exactly the
"Invalid credentials" notice. -/
theorem failed_login_leaves_state_unchanged_witness :
    lookupUser sysC10.users "alice" = some "p1" ∧
    loginStep (fun s => s) sysC10 1 "alice" "wrong" =
      (sysC10, [(1, serverText "Invalid credentials")]) := by
  have h := failed_login_leaves_state_unchanged (fun s => s) sysC10 1
    "alice" "wrong" "p1" (by decide) (by decide)
  exact ⟨by decide, h⟩

end GoChat
